import Mathlib

/-!
Shallow embedding of the IntrusionDetectionSystem repository's
detection-to-response pipeline, and proofs about it.

Embedded source files:
* `src/nids/intrusion_prevention.py` — `is_valid_ip`, the `IntrusionPrevention`
  class (`block_ip`, `unblock_ip`, `_save_blocked_ips`, `_load_blocked_ips`).
* `src/Alert system/AlertEngine.py` — the `AlertEngine` class (`process_flow`).
* `src/examples/auto_blocking.py` — the `CustomThreatResponse` class
  (`should_block` and the score-accumulation step of `process_alert`).

Modelling conventions:
* Python floats are modelled as `ℚ` (every constant appearing in the code and
  in the scenarios below is exactly representable, and all comparisons agree
  with binary64 comparisons on those constants).
* Python `dict` / `defaultdict` values are modelled as insertion-ordered
  association lists (`List (String × α)`); `set` values as `List String`
  kept duplicate-free (a Python set cannot hold duplicates).
* File contents are modelled as the list of written lines (for
  `blocked_ips.txt`, where the code writes one IP per line) and as the list of
  JSON-serialised records (for `alerts/block_history.json`).
* Exceptions that the code catches and logs are modelled by the control flow
  the `except` branch actually produces; fallible writes take an explicit
  success flag.
-/

/-! Association-list helpers (Python dict / defaultdict semantics) -/

/-- Read a key from a Python dict, with a default for a missing key
(`dict.get(k, d)` / reading a `defaultdict` without inserting). -/
def alist_getD {α : Type} (m : List (String × α)) (k : String) (d : α) : α :=
  match m.lookup k with
  | some v => v
  | none => d

/-- Write a key into a Python dict: replaces the value in place if the key is
present (keeping its position, as an insertion-ordered dict does), otherwise
appends the new binding at the end. -/
def alist_set {α : Type} : List (String × α) → String → α → List (String × α)
  | [], k, v => [(k, v)]
  | (k', v') :: m, k, v =>
      if k' = k then (k, v) :: m else (k', v') :: alist_set m k v

/-- Read a key from a `defaultdict`: returns the stored value, or inserts and
returns the default when the key is missing (a `defaultdict` access mutates
the dict on a miss). Returns the value together with the updated dict. -/
def alist_get_ins {α : Type} (m : List (String × α)) (k : String) (d : α) :
    α × List (String × α) :=
  match m.lookup k with
  | some v => (v, m)
  | none => (d, m ++ [(k, d)])

/-- Python `set.add`: append the element unless already present. -/
def set_add (s : List String) (x : String) : List String :=
  if x ∈ s then s else s ++ [x]

/-! Embedding of `is_valid_ip` (src/nids/intrusion_prevention.py, lines 17-38)

The Python code first tests the anchored regular expression
`^(\\d{1,3}\\.){3}\\d{1,3}$` with `re.match` and returns `False` on no match;
it then splits the string on `'.'` and returns
`all(0 <= int(part) <= 255 for part in parts)`.

Two points of Python semantics matter for faithfulness:
* `$` (without `re.MULTILINE`) matches at the end of the string OR just
  before a single newline at the end of the string, so the pattern also
  accepts a dotted quad followed by exactly one trailing newline.
* `\\d` in a `str` pattern matches every Unicode decimal digit (category
  Nd), not just ASCII, and `int` strips surrounding whitespace and parses
  those digits by their decimal digit values.  Category Nd consists of
  aligned runs of ten consecutive code points with digit values 0-9; the
  table below lists the first code point of every such run (Unicode database
  of CPython 3.11, the interpreter this repository runs under).

The `try/except` around the `int` calls can never fire once the regex has
matched: every part is then a non-empty digit string, optionally with one
trailing newline on the last part, on which `int` succeeds. -/

/-- First code point of every run of Unicode decimal digits (category Nd);
each run holds the digits 0-9 at consecutive code points. -/
def ndDigitStarts : List Nat :=
  [48, 1632, 1776, 1984, 2406, 2534, 2662, 2790, 2918, 3046, 3174, 3302,
   3430, 3558, 3664, 3792, 3872, 4160, 4240, 6112, 6160, 6470, 6608, 6784,
   6800, 6992, 7088, 7232, 7248, 42528, 43216, 43264, 43472, 43504, 43600,
   44016, 65296, 66720, 68912, 69734, 69872, 69942, 70096, 70384, 70736,
   70864, 71248, 71360, 71472, 71904, 72016, 72784, 73040, 73120, 92768,
   92864, 93008, 120782, 120792, 120802, 120812, 120822, 123200, 123632,
   125264, 130032]

/-- Python's `\\d` for `str` patterns: a Unicode decimal digit. -/
def isPyDigit (c : Char) : Bool :=
  ndDigitStarts.any fun s => decide (s ≤ c.toNat) && decide (c.toNat ≤ s + 9)

/-- The decimal digit value of a Unicode decimal digit (0 for non-digits;
only ever applied to digits below). -/
def pyDigitVal (c : Char) : Nat :=
  match ndDigitStarts.find? (fun s => decide (s ≤ c.toNat) &&
      decide (c.toNat ≤ s + 9)) with
  | some s => c.toNat - s
  | none => 0

/-- The numeric value of a string of Unicode decimal digits, as `int`
computes it. -/
def parsePyDigits (cs : List Char) : Nat :=
  cs.foldl (fun acc c => acc * 10 + pyDigitVal c) 0

/-- Python `str.strip` on the character list (drop leading and trailing
whitespace). -/
def stripChars (cs : List Char) : List Char :=
  ((cs.dropWhile Char.isWhitespace).reverse.dropWhile Char.isWhitespace).reverse

/-- Python `str.strip`. -/
def pyStrip (s : String) : String :=
  String.mk (stripChars s.data)

/-- Python `int` as applied to the parts of a regex-matched address: strips
surrounding whitespace, then reads the decimal digits. -/
def pyInt (cs : List Char) : Nat :=
  parsePyDigits (stripChars cs)

/-- Python `str.split('.')` on the underlying character list. -/
def splitDot : List Char → List (List Char)
  | [] => [[]]
  | c :: cs =>
      if c = '.' then [] :: splitDot cs
      else
        match splitDot cs with
        | [] => [[c]]
        | p :: ps => (c :: p) :: ps

/-- Matcher for the anchored pattern `^(\\d{1,3}\\.){3}\\d{1,3}$`: `k`
trailing `\\d{1,3}\\.` groups remain before the final `\\d{1,3}$` group (so
the whole pattern is `matchOctets 3`).  Because `\\d`, the literal `.` and
the newline that `$` tolerates are pairwise disjoint, the regex engine's
greedy matching with backtracking is equivalent to this deterministic
matcher: each group must consume the maximal leading digit run, which must
have length 1 to 3, and `$` accepts either the end of the string or exactly
one trailing newline. -/
def matchOctets : Nat → List Char → Bool
  | 0, cs =>
      decide (1 ≤ (cs.takeWhile isPyDigit).length) &&
      decide ((cs.takeWhile isPyDigit).length ≤ 3) &&
      ((cs.dropWhile isPyDigit).isEmpty || cs.dropWhile isPyDigit == ['\n'])
  | k + 1, cs =>
      decide (1 ≤ (cs.takeWhile isPyDigit).length) &&
      decide ((cs.takeWhile isPyDigit).length ≤ 3) &&
      (match cs.dropWhile isPyDigit with
       | c :: rest => c == '.' && matchOctets k rest
       | [] => false)

/-- Function `is_valid_ip(ip_address)` from src/nids/intrusion_prevention.py. -/
def is_valid_ip (s : String) : Bool :=
  if matchOctets 3 s.data = false then false
  else
    (splitDot s.data).all fun part =>
      decide (0 ≤ pyInt part) && decide (pyInt part ≤ 255)

/-- The characterization claimed by C10, written from the claim's words: the
string consists of four dot-separated groups of one to three decimal digits,
with each group's value between 0 and 255 inclusive. -/
def isIpv4DottedQuad (s : String) : Bool :=
  (splitDot s.data).length == 4 &&
  (splitDot s.data).all fun part =>
    decide (1 ≤ part.length) && decide (part.length ≤ 3) &&
    part.all isPyDigit && decide (parsePyDigits part ≤ 255)

/-- Removal of a single trailing newline, if present (what Python's `$`
tolerates at the end of the subject). -/
def dropTrailingNl (cs : List Char) : List Char :=
  if cs.getLast? = some '\n' then cs.dropLast else cs

/-- The amended characterization of C10: the string, after removal of a
single trailing newline if present, consists of four dot-separated groups of
one to three decimal digits with each group's value between 0 and 255
inclusive. -/
def isIpv4DottedQuadNL (s : String) : Bool :=
  (splitDot (dropTrailingNl s.data)).length == 4 &&
  (splitDot (dropTrailingNl s.data)).all fun part =>
    decide (1 ≤ part.length) && decide (part.length ≤ 3) &&
    part.all isPyDigit && decide (parsePyDigits part ≤ 255)

/-- Inverse of `splitDot`: re-join the parts with dots. -/
def joinDot : List (List Char) → List Char
  | [] => []
  | [p] => p
  | p :: q :: ps => p ++ '.' :: joinDot (q :: ps)

/-- A well-formed regex group: one to three decimal digits. -/
def gOk (g : List Char) : Prop :=
  1 ≤ g.length ∧ g.length ≤ 3 ∧ ∀ c ∈ g, isPyDigit c = true

/-- A well-formed group whose value passes the octet range check. -/
def gOk255 (g : List Char) : Prop :=
  gOk g ∧ parsePyDigits g ≤ 255

/-- The decomposition both `is_valid_ip` and the amended claim predicate are
equivalent to: four dot-separated in-range digit groups followed by nothing
or one newline. -/
def ipChainP (s : String) : Prop :=
  ∃ g1 g2 g3 g4 nl,
    s.data = g1 ++ '.' :: (g2 ++ '.' :: (g3 ++ '.' :: (g4 ++ nl))) ∧
    (nl = [] ∨ nl = ['\n']) ∧
    gOk255 g1 ∧ gOk255 g2 ∧ gOk255 g3 ∧ gOk255 g4

/-! Embedding of `IntrusionPrevention` (src/nids/intrusion_prevention.py)

State of one `IntrusionPrevention` object plus the two files it persists to
(`blocked_ips.txt` and `alerts/block_history.json`).  The code's
`datetime.now().isoformat()` timestamp is threaded in as an opaque string
argument.  `os.name == 'posix'` (`_is_linux`) is threaded in as a boolean.
`_save_blocked_ips` catches every exception internally (logging it), so a
failing write is modelled by a success flag: on failure the files are left as
they were and control returns normally to the caller. -/

/-- One entry of `self.block_history` (the dict built in `block_ip`). -/
structure BlockRecord where
  ip : String
  timestamp : String
  severity : String
  alert_count : Nat
  method : String
deriving DecidableEq

/-- In-memory state of an `IntrusionPrevention` object (the fields touched by
`block_ip`/`unblock_ip`; `block_threshold` and `block_duration` are never read
by them). -/
structure PreventionState where
  auto_block : Bool
  blocked_ips : List String
  ip_alert_count : List (String × Nat)
  block_history : List BlockRecord
deriving DecidableEq

/-- The two files written by `_save_blocked_ips`: `blocked_ips.txt` as the list
of its lines (one IP per line, written in set-iteration order) and
`alerts/block_history.json` as the serialised record list. -/
structure DiskState where
  blocked_lines : List String
  history_json : List BlockRecord
deriving DecidableEq

/-- Result of a `block_ip`/`unblock_ip` call: the Python return value, the
updated in-memory state, the updated files, and the address handed to the
iptables helper (`none` when no `_block_with_iptables`/`_unblock_with_iptables`
call was made). -/
structure BlockOutcome where
  ret : Bool
  state : PreventionState
  disk : DiskState
  os_forwarded : Option String
deriving DecidableEq

/-- Method `_save_blocked_ips`: rewrites both files from the in-memory state.  Any
exception is caught inside this method and only logged, so on failure (`ok =
false`) the files keep their previous contents and the caller proceeds
normally. -/
def save_blocked_ips (ok : Bool) (st : PreventionState) (disk : DiskState) :
    DiskState :=
  if ok then { blocked_lines := st.blocked_ips, history_json := st.block_history }
  else disk

/-- Method `block_ip(ip_address, severity)` (src/nids/intrusion_prevention.py,
lines 96-144).  `stamp` is `datetime.now().isoformat()`, `save_ok` is whether
the file writes in `_save_blocked_ips` succeed, `is_linux` is `_is_linux()`. -/
def block_ip (st : PreventionState) (disk : DiskState)
    (ip_address severity stamp : String) (save_ok is_linux : Bool) :
    BlockOutcome :=
  if is_valid_ip ip_address = false then
    { ret := false, state := st, disk := disk, os_forwarded := none }
  else if ip_address ∈ st.blocked_ips then
    { ret := false, state := st, disk := disk, os_forwarded := none }
  else
    let blocked := st.blocked_ips ++ [ip_address]
    -- `self.ip_alert_count[ip_address]` is a defaultdict read: it inserts a
    -- zero entry when the key is missing.
    let pr := alist_get_ins st.ip_alert_count ip_address 0
    let record : BlockRecord :=
      { ip := ip_address, timestamp := stamp, severity := severity
        alert_count := pr.1
        method := if st.auto_block then "auto" else "manual" }
    let st2 : PreventionState :=
      { st with blocked_ips := blocked, ip_alert_count := pr.2
                block_history := st.block_history ++ [record] }
    let disk2 := save_blocked_ips save_ok st2 disk
    { ret := true, state := st2, disk := disk2
      os_forwarded := if is_linux then some ip_address else none }

/-- Method `unblock_ip(ip_address)` (src/nids/intrusion_prevention.py,
lines 146-186). -/
def unblock_ip (st : PreventionState) (disk : DiskState) (ip_address : String)
    (save_ok is_linux : Bool) : BlockOutcome :=
  if is_valid_ip ip_address = false then
    { ret := false, state := st, disk := disk, os_forwarded := none }
  else if ip_address ∉ st.blocked_ips then
    { ret := false, state := st, disk := disk, os_forwarded := none }
  else
    let st2 : PreventionState :=
      { st with blocked_ips := st.blocked_ips.erase ip_address
                ip_alert_count := alist_set st.ip_alert_count ip_address 0 }
    let disk2 := save_blocked_ips save_ok st2 disk
    { ret := true, state := st2, disk := disk2
      os_forwarded := if is_linux then some ip_address else none }

/-- The in-memory state `block_ip` builds on its success path (used to state
evaluation lemmas; a direct transcription of the success branch). -/
def blockSuccState (st : PreventionState) (ip sev stamp : String) :
    PreventionState :=
  { auto_block := st.auto_block
    blocked_ips := st.blocked_ips ++ [ip]
    ip_alert_count := (alist_get_ins st.ip_alert_count ip 0).2
    block_history := st.block_history ++
      [{ ip := ip, timestamp := stamp, severity := sev
         alert_count := (alist_get_ins st.ip_alert_count ip 0).1
         method := if st.auto_block then "auto" else "manual" }] }

/-- The in-memory state `unblock_ip` builds on its success path. -/
def unblockSuccState (st : PreventionState) (ip : String) : PreventionState :=
  { auto_block := st.auto_block
    blocked_ips := st.blocked_ips.erase ip
    ip_alert_count := alist_set st.ip_alert_count ip 0
    block_history := st.block_history }

/-- A fresh `IntrusionPrevention.__init__` state before `_load_blocked_ips`
runs (`blocked_ips = set()`, `ip_alert_count = defaultdict(int)`,
`block_history = []`). -/
def init_prevention (auto : Bool) : PreventionState :=
  { auto_block := auto, blocked_ips := [], ip_alert_count := []
    block_history := [] }

/-- The physical content of `blocked_ips.txt`: each recorded identifier is
written as `f"{ip}\\n"`, so the file is the concatenation of the identifiers,
each followed by a newline.  (If an identifier itself ends in a newline, the
file gains an extra empty line.) -/
def file_text (written : List String) : List Char :=
  (written.map fun ip => ip.data ++ ['\n']).flatten

/-- Splitting the file content into newline-separated chunks.  Iterating a
Python file yields each line with its terminator; since the loader strips
every line, processing the chunks between newlines (plus a final empty chunk
when the text ends in a newline, which strips to empty and is skipped) gives
the same result. -/
def splitNl : List Char → List (List Char)
  | [] => [[]]
  | c :: cs =>
      if c = '\n' then [] :: splitNl cs
      else
        match splitNl cs with
        | [] => [[c]]
        | p :: ps => (c :: p) :: ps

/-- Method `_load_blocked_ips` as run by `__init__` on startup: reads the
lines of `blocked_ips.txt`, strips each, adds each non-empty result to the
blocked set, and replaces the history with the JSON contents. -/
def init_from_disk (auto : Bool) (disk : DiskState) : PreventionState :=
  { auto_block := auto
    blocked_ips := (splitNl (file_text disk.blocked_lines)).foldl
      (fun acc line =>
        let ip := pyStrip (String.mk line)
        if ip = "" then acc else set_add acc ip) []
    ip_alert_count := []
    block_history := disk.history_json }

/-- The empty file system before anything was persisted. -/
def empty_disk : DiskState := { blocked_lines := [], history_json := [] }

/-- One requested `block_ip` call (address, severity, and the wall-clock
timestamp the call would record). -/
structure BlockRequest where
  ip : String
  severity : String
  stamp : String

/-- Run a sequence of `block_ip` calls with persistence succeeding, collecting
each call's boolean result. -/
def run_block_calls (st : PreventionState) (disk : DiskState) (is_linux : Bool) :
    List BlockRequest → List Bool × PreventionState × DiskState
  | [] => ([], st, disk)
  | r :: rs =>
    let o := block_ip st disk r.ip r.severity r.stamp true is_linux
    let rest := run_block_calls o.state o.disk is_linux rs
    (o.ret :: rest.1, rest.2.1, rest.2.2)

/-- The consistency invariant maintained between an `IntrusionPrevention`
object and its files while every save succeeds. -/
def prevention_disk_inv (st : PreventionState) (disk : DiskState) : Prop :=
  disk.blocked_lines = st.blocked_ips ∧
  disk.history_json = st.block_history ∧
  st.blocked_ips.Nodup ∧
  ∀ ip ∈ st.blocked_ips, is_valid_ip ip = true

/-! Embedding of `AlertEngine` (src/Alert system/AlertEngine.py)

`process_flow` runs ML inference, drops benign or low-confidence
classifications, appends the current time to the per-source deque of
suspicious-flow timestamps, evicts stale timestamps from the front, and emits
an alert when the retained count reaches the threshold.  The classifier and
label encoder are external collaborators, so the classification result
(`attack`, `confidence`) and the wall clock (`now = time.time()`) are inputs
of the embedded function. -/

/-- Engine state: configuration plus `self.suspicious_flows`
(`defaultdict(deque)`, source IP to timestamps of suspicious flows). -/
structure AlertEngineState where
  window_seconds : ℚ
  flow_threshold : Nat
  confidence_threshold : ℚ
  suspicious_flows : List (String × List ℚ)
deriving DecidableEq

/-- The alert dictionary returned by `process_flow`. -/
structure FlowAlert where
  timestamp : ℚ
  src_ip : String
  attack_type : String
  count : Nat
  confidence : ℚ
deriving DecidableEq

/-- Python `round(x, 2)`.  (Mathlib's `round` rounds halves up while Python
rounds halves to even; the two agree everywhere except at exact ties of the
third decimal, which occur nowhere in this development.) -/
def round2 (x : ℚ) : ℚ := (round (x * 100) : ℤ) / 100

/-- The filter on line 29 of AlertEngine.py, as the condition for a suspicion
event to be recorded: the negation of
`attack == "Benign" or confidence < self.confidence_threshold`. -/
def suspicion_recorded (attack : String) (confidence threshold : ℚ) : Bool :=
  !((attack == "Benign") || decide (confidence < threshold))

/-- Method `process_flow(flow_features, src_ip)` with the classifier output and the
clock passed in.  The `defaultdict` access `self.suspicious_flows[src_ip]`
inserts an empty deque on a miss, which the in-place `append`/`popleft`
mutations then turn into the evicted list; the net effect on the dict is
writing the evicted list under `src_ip` (in place if the key existed,
appended at the end otherwise), which is what `alist_set` does. -/
def process_flow (st : AlertEngineState) (attack : String) (confidence : ℚ)
    (now : ℚ) (src_ip : String) : Option FlowAlert × AlertEngineState :=
  if attack = "Benign" ∨ confidence < st.confidence_threshold then (none, st)
  else
    let ts1 := (alist_getD st.suspicious_flows src_ip [] ++ [now]).dropWhile
      fun t => decide (now - t > st.window_seconds)
    let st1 : AlertEngineState :=
      { st with suspicious_flows := alist_set st.suspicious_flows src_ip ts1 }
    if st.flow_threshold ≤ ts1.length then
      (some { timestamp := now, src_ip := src_ip, attack_type := attack
              count := ts1.length, confidence := round2 confidence }, st1)
    else (none, st1)

/-- One injected observation for a batch run (classifier output plus clock). -/
structure FlowEvent where
  attack : String
  confidence : ℚ
  observed_at : ℚ
  src_ip : String

/-- Feed a list of observations through `process_flow`, collecting the alerts
it returns. -/
def run_flows (st : AlertEngineState) :
    List FlowEvent → List FlowAlert × AlertEngineState
  | [] => ([], st)
  | e :: es =>
    let r := process_flow st e.attack e.confidence e.observed_at e.src_ip
    let rest := run_flows r.2 es
    (r.1.toList ++ rest.1, rest.2)

/-- An `AlertEngine()` with the default configuration
(`window_seconds=5, flow_threshold=10, confidence_threshold=0.7`). -/
def default_engine : AlertEngineState :=
  { window_seconds := 5, flow_threshold := 10, confidence_threshold := 7/10
    suspicious_flows := [] }

/-- An engine state with one non-empty per-source window, used as a concrete
input for witnesses. -/
def sample_engine : AlertEngineState :=
  { window_seconds := 5, flow_threshold := 10, confidence_threshold := 7/10
    suspicious_flows := [("10.0.0.1", [0, 3])] }

/-- A burst of identical high-confidence "DoS" classifications at the given
times. -/
def burst_events (times : List ℚ) (src : String) : List FlowEvent :=
  times.map fun t =>
    { attack := "DoS", confidence := 9/10, observed_at := t, src_ip := src }

/-! Embedding of `CustomThreatResponse` (src/examples/auto_blocking.py)

The custom threat-response rules of the auto-blocking example:
`calculate_threat_score` turns an alert into a score, `process_alert`
accumulates it per source IP and asks `should_block` for a block decision.
The claims concern the decision logic given per-alert score contributions, so
the embedded step takes the computed score as input. -/

/-- State of a `CustomThreatResponse` object. -/
structure ThreatResponseState where
  ip_threat_scores : List (String × ℚ)
  ip_first_seen : List (String × ℚ)
  blocked_ips : List String
deriving DecidableEq

/-- A fresh `CustomThreatResponse()`. -/
def init_response : ThreatResponseState :=
  { ip_threat_scores := [], ip_first_seen := [], blocked_ips := [] }

/-- Method `should_block(ip, current_score)` (src/examples/auto_blocking.py, lines
56-73).  The read `self.ip_threat_scores[ip]` is a `defaultdict(float)`
access, inserting `0.0` on a miss; `alert_count` is
`len([s for s in self.ip_threat_scores if s == ip])`, which iterates the
dict's KEYS and therefore counts the keys equal to `ip`. -/
def should_block (st : ThreatResponseState) (ip : String)
    (current_score : ℚ) : Bool × Option String × ThreatResponseState :=
  let pr := alist_get_ins st.ip_threat_scores ip 0
  let st1 : ThreatResponseState := { st with ip_threat_scores := pr.2 }
  if pr.1 ≥ 50 then (true, some "High cumulative threat score", st1)
  else if current_score ≥ 40 then (true, some "Critical threat detected", st1)
  else
    let alert_count := (st1.ip_threat_scores.map Prod.fst).count ip
    if alert_count ≥ 5 then (true, some "Repeated suspicious activity", st1)
    else (false, none, st1)

/-- The decision-relevant steps of `process_alert` (lines 86-99):
`self.ip_threat_scores[source_ip] += threat_score` followed by
`self.should_block(source_ip, threat_score)`. -/
def record_and_decide (st : ThreatResponseState) (ip : String) (score : ℚ) :
    Bool × Option String × ThreatResponseState :=
  let ns := alist_set st.ip_threat_scores ip
    (alist_getD st.ip_threat_scores ip 0 + score)
  let st1 : ThreatResponseState := { st with ip_threat_scores := ns }
  should_block st1 ip score

/-- Process a sequence of per-alert threat-score contributions for one
source, collecting each alert's block decision. -/
def run_alert_scores (st : ThreatResponseState) (ip : String) :
    List ℚ → List Bool × ThreatResponseState
  | [] => ([], st)
  | sc :: rest =>
    let r := record_and_decide st ip sc
    let rest2 := run_alert_scores r.2.2 ip rest
    (r.1 :: rest2.1, rest2.2)

/-! The combined system, for the unblock claim (C8)

`IntrusionPrevention.unblock_ip` is the repository's only unblock operation.
`CustomThreatResponse` defines no method that resets `ip_threat_scores` (or
its own `blocked_ips` mirror), and nothing calls back into it on unblock, so
an unblock in the running system leaves the threat-response state untouched. -/

/-- The state of the whole auto-blocking example: the threat-response object,
the prevention object and its files. -/
structure SystemState where
  response : ThreatResponseState
  prevention : PreventionState
  disk : DiskState
deriving DecidableEq

/-- An unblock in the combined system: runs `unblock_ip` on the prevention
component (the only component with an unblock operation). -/
def system_unblock (sys : SystemState) (ip : String)
    (save_ok is_linux : Bool) : Bool × SystemState :=
  let o := unblock_ip sys.prevention sys.disk ip save_ok is_linux
  (o.ret, { sys with prevention := o.state, disk := o.disk })

/-- A concrete running system: source 203.0.113.7 has accumulated threat
score 52.0, six alerts, and is currently blocked. -/
def sample_system : SystemState where
  response :=
    { ip_threat_scores := [("203.0.113.7", 52)], ip_first_seen := [], blocked_ips := ["203.0.113.7"] }
  prevention :=
    { auto_block := false, blocked_ips := ["203.0.113.7"], ip_alert_count := [("203.0.113.7", 6)], block_history := [] }
  disk := { blocked_lines := ["203.0.113.7"], history_json := [] }

/-! Theorems. -/

/-- The function `splitDot` never returns the empty list. -/
theorem splitDot_ne_nil (cs : List Char) : splitDot cs ≠ [] := by
  induction cs with
  | nil => simp [splitDot]
  | cons c cs ih =>
    simp only [splitDot]
    by_cases h : c = '.'
    · simp [h]
    · simp only [h, if_false]
      cases hs : splitDot cs with
      | nil => simp
      | cons p ps => simp

/-- Unfolding lemma: splitting a list that starts with a non-dot character. -/
theorem splitDot_cons_ne (c : Char) (cs : List Char) (h : c ≠ '.')
    (q : List Char) (qs : List (List Char)) (hq : splitDot cs = q :: qs) :
    splitDot (c :: cs) = (c :: q) :: qs := by
  simp [splitDot, h, hq]

/-- Unfolding lemma: splitting a list that starts with a dot. -/
theorem splitDot_cons_dot (cs : List Char) :
    splitDot ('.' :: cs) = [] :: splitDot cs := by
  simp [splitDot]

/-- Splitting a list that starts with a dot-free prefix. -/
theorem splitDot_append_free (xs ys : List Char) (p : List Char)
    (ps : List (List Char)) (hys : splitDot ys = p :: ps)
    (hxs : ∀ c ∈ xs, c ≠ '.') :
    splitDot (xs ++ ys) = (xs ++ p) :: ps := by
  induction xs with
  | nil => simpa using hys
  | cons c xs ih =>
    have hc : c ≠ '.' := hxs c (by simp)
    have ih' := ih fun d hd => hxs d (by simp [hd])
    rw [List.cons_append, splitDot_cons_ne c (xs ++ ys) hc (xs ++ p) ps ih',
      List.cons_append]

/-- Joining undoes splitting: `joinDot` is a left inverse of `splitDot`. -/
theorem joinDot_splitDot (cs : List Char) : joinDot (splitDot cs) = cs := by
  induction cs with
  | nil => simp [splitDot, joinDot]
  | cons c cs ih =>
    simp only [splitDot]
    by_cases h : c = '.'
    · subst h
      simp only [if_pos rfl]
      cases hs : splitDot cs with
      | nil => exact absurd hs (splitDot_ne_nil cs)
      | cons p ps =>
        rw [hs] at ih
        simp [joinDot, ih]
    · simp only [h, if_false]
      cases hs : splitDot cs with
      | nil => exact absurd hs (splitDot_ne_nil cs)
      | cons p ps =>
        rw [hs] at ih
        cases ps with
        | nil => simpa [joinDot] using congrArg (c :: ·) ih
        | cons q qs => simpa [joinDot] using congrArg (c :: ·) ih

/-- Behaviour of `takeWhile` and `dropWhile` on an all-true prefix followed by a failing element. -/
theorem takeWhile_all_append {q : Char → Bool} (xs : List Char) (y : Char)
    (ys : List Char) (hxs : ∀ a ∈ xs, q a = true) (hy : q y = false) :
    (xs ++ y :: ys).takeWhile q = xs ∧ (xs ++ y :: ys).dropWhile q = y :: ys := by
  induction xs with
  | nil => simp [List.takeWhile_cons, List.dropWhile_cons, hy]
  | cons a xs ih =>
    have ha : q a = true := hxs a (by simp)
    have ih' := ih fun b hb => hxs b (by simp [hb])
    simp [List.takeWhile_cons, List.dropWhile_cons, ha, ih'.1, ih'.2]

/-- Behaviour of `takeWhile` and `dropWhile` on an all-true list. -/
theorem takeWhile_all {q : Char → Bool} (xs : List Char)
    (hxs : ∀ a ∈ xs, q a = true) :
    xs.takeWhile q = xs ∧ xs.dropWhile q = [] := by
  induction xs with
  | nil => simp
  | cons a xs ih =>
    have ha : q a = true := hxs a (by simp)
    have ih' := ih fun b hb => hxs b (by simp [hb])
    simp [List.takeWhile_cons, List.dropWhile_cons, ha, ih'.1, ih'.2]

/-- C7 amended: for every source identifier that `is_valid_ip` rejects,
`block_ip` returns `False`, the in-memory state (blocked set, alert counts,
block history) and both persisted files are unchanged, and the identifier is
never forwarded to the iptables helper.  (The validator does not reject every
malformed identifier: a dotted quad with one trailing newline passes it, see
the counterexample.) -/
theorem C7_invalid_source_rejected (st : PreventionState) (disk : DiskState)
    (s sev stamp : String) (save_ok is_linux : Bool)
    (h : is_valid_ip s = false) :
    block_ip st disk s sev stamp save_ok is_linux =
      { ret := false, state := st, disk := disk, os_forwarded := none } := by
  unfold block_ip
  rw [h]
  simp

/-- Witness for C7 at the claim's example input "not-an-ip". -/
theorem C7_invalid_source_rejected_witness :
    is_valid_ip "not-an-ip" = false ∧
    block_ip (init_prevention false) empty_disk "not-an-ip" "HIGH" "t0"
        true true =
      { ret := false, state := init_prevention false, disk := empty_disk
        os_forwarded := none } :=
  ⟨by decide,
   C7_invalid_source_rejected (init_prevention false) empty_disk "not-an-ip"
     "HIGH" "t0" true true (by decide)⟩

/-- Evaluation: `block_ip` on a valid, not-yet-blocked address takes the
success path. -/
theorem block_ip_success (st : PreventionState) (disk : DiskState)
    (ip sev stamp : String) (save_ok is_linux : Bool)
    (hv : is_valid_ip ip = true) (hm : ip ∉ st.blocked_ips) :
    block_ip st disk ip sev stamp save_ok is_linux =
      { ret := true
        state := blockSuccState st ip sev stamp
        disk := save_blocked_ips save_ok (blockSuccState st ip sev stamp) disk
        os_forwarded := if is_linux then some ip else none } := by
  unfold block_ip
  rw [hv]
  simp only [Bool.true_eq_false, if_false]
  rw [if_neg hm]
  rfl

/-- Evaluation: `block_ip` on an already-blocked valid address is a no-op
returning `False`. -/
theorem block_ip_already (st : PreventionState) (disk : DiskState)
    (ip sev stamp : String) (save_ok is_linux : Bool)
    (hv : is_valid_ip ip = true) (hm : ip ∈ st.blocked_ips) :
    block_ip st disk ip sev stamp save_ok is_linux =
      { ret := false, state := st, disk := disk, os_forwarded := none } := by
  unfold block_ip
  rw [hv]
  simp only [Bool.true_eq_false, if_false]
  rw [if_pos hm]

/-- Evaluation: `unblock_ip` on a valid, currently-blocked address takes the
success path. -/
theorem unblock_ip_success (st : PreventionState) (disk : DiskState)
    (ip : String) (save_ok is_linux : Bool)
    (hv : is_valid_ip ip = true) (hm : ip ∈ st.blocked_ips) :
    unblock_ip st disk ip save_ok is_linux =
      { ret := true
        state := unblockSuccState st ip
        disk := save_blocked_ips save_ok (unblockSuccState st ip) disk
        os_forwarded := if is_linux then some ip else none } := by
  unfold unblock_ip
  rw [hv]
  simp only [Bool.true_eq_false, if_false]
  rw [if_neg (by simp only [not_not]; exact hm)]
  rfl

/-- Evaluation: `unblock_ip` on a valid address that is not blocked is a no-op
returning `False`. -/
theorem unblock_ip_not_blocked (st : PreventionState) (disk : DiskState)
    (ip : String) (save_ok is_linux : Bool)
    (hv : is_valid_ip ip = true) (hm : ip ∉ st.blocked_ips) :
    unblock_ip st disk ip save_ok is_linux =
      { ret := false, state := st, disk := disk, os_forwarded := none } := by
  unfold unblock_ip
  rw [hv]
  simp only [Bool.true_eq_false, if_false]
  rw [if_pos hm]

/-- C2 counterexample: with the file write failing, `block_ip` on a fresh
state still returns `True` and still leaves "203.0.113.9" in the in-memory
blocked set — the call neither fails nor rolls the transition back, so the
claim is false at this input. -/
theorem C2_counterexample :
    ¬ ((block_ip (init_prevention false) empty_disk "203.0.113.9" "HIGH" "t0"
          false false).ret = false ∨
       (block_ip (init_prevention false) empty_disk "203.0.113.9" "HIGH" "t0"
          false false).state.blocked_ips =
         (init_prevention false).blocked_ips) := by
  decide

/-- C2 amended: if persisting the block-list fails during a `block_ip` or
`unblock_ip` call, the exception is caught and logged inside
`_save_blocked_ips`; the call still returns `True` and keeps the in-memory
state transition (no rollback), while the files keep their old contents, so
memory and disk diverge. -/
theorem C2_amended_save_failure_not_rolled_back (st : PreventionState)
    (disk : DiskState) (ip sev stamp : String) (is_linux : Bool)
    (hv : is_valid_ip ip = true) (hn : st.blocked_ips.Nodup) :
    (ip ∉ st.blocked_ips →
      (block_ip st disk ip sev stamp false is_linux).ret = true ∧
      ip ∈ (block_ip st disk ip sev stamp false is_linux).state.blocked_ips ∧
      (block_ip st disk ip sev stamp false is_linux).disk = disk) ∧
    (ip ∈ st.blocked_ips →
      (unblock_ip st disk ip false is_linux).ret = true ∧
      ip ∉ (unblock_ip st disk ip false is_linux).state.blocked_ips ∧
      (unblock_ip st disk ip false is_linux).disk = disk) := by
  constructor
  · intro hmem
    rw [block_ip_success st disk ip sev stamp false is_linux hv hmem]
    refine ⟨rfl, ?_, rfl⟩
    simp [blockSuccState]
  · intro hmem
    rw [unblock_ip_success st disk ip false is_linux hv hmem]
    exact ⟨rfl, hn.not_mem_erase, rfl⟩

/-- Witness for C2's amended theorem at a concrete input. -/
theorem C2_amended_save_failure_witness :
    is_valid_ip "203.0.113.9" = true ∧
    (init_prevention false).blocked_ips.Nodup ∧
    (block_ip (init_prevention false) empty_disk "203.0.113.9" "HIGH" "t0"
        false false).ret = true ∧
    "203.0.113.9" ∈ (block_ip (init_prevention false) empty_disk "203.0.113.9"
        "HIGH" "t0" false false).state.blocked_ips ∧
    (block_ip (init_prevention false) empty_disk "203.0.113.9" "HIGH" "t0"
        false false).disk = empty_disk := by
  have h := (C2_amended_save_failure_not_rolled_back (init_prevention false)
    empty_disk "203.0.113.9" "HIGH" "t0" false (by decide) (by decide)).1
    (by decide)
  exact ⟨by decide, by decide, h.1, h.2.1, h.2.2⟩

/-- C6 counterexample: after a successful block of "203.0.113.5", the second
block call for it returns the very same `False` that a validation failure
(input "not-an-ip") returns — the reported no-op is not distinguishable from
failure by the caller. -/
theorem C6_counterexample :
    ¬ ((block_ip
          (block_ip (init_prevention false) empty_disk "203.0.113.5" "HIGH"
            "t0" true false).state
          (block_ip (init_prevention false) empty_disk "203.0.113.5" "HIGH"
            "t0" true false).disk
          "203.0.113.5" "HIGH" "t1" true false).ret ≠
        (block_ip
          (block_ip (init_prevention false) empty_disk "203.0.113.5" "HIGH"
            "t0" true false).state
          (block_ip (init_prevention false) empty_disk "203.0.113.5" "HIGH"
            "t0" true false).disk
          "not-an-ip" "HIGH" "t1" true false).ret) := by
  decide

/-- C6 amended: after a successful block of a valid source, a second block
call for the same source returns `False` (the code reports the no-op only via
a log message; the boolean return value is the same one failures produce),
leaves the in-memory state and the files unchanged, and the persisted
block-list contains that source exactly once. -/
theorem C6_amended_second_block_noop (st : PreventionState) (disk : DiskState)
    (ip sev stamp1 stamp2 : String) (is_linux : Bool)
    (hv : is_valid_ip ip = true) (hm : ip ∉ st.blocked_ips) :
    (block_ip st disk ip sev stamp1 true is_linux).ret = true ∧
    (block_ip
        (block_ip st disk ip sev stamp1 true is_linux).state
        (block_ip st disk ip sev stamp1 true is_linux).disk
        ip sev stamp2 true is_linux).ret = false ∧
    (block_ip
        (block_ip st disk ip sev stamp1 true is_linux).state
        (block_ip st disk ip sev stamp1 true is_linux).disk
        ip sev stamp2 true is_linux).state =
      (block_ip st disk ip sev stamp1 true is_linux).state ∧
    (block_ip
        (block_ip st disk ip sev stamp1 true is_linux).state
        (block_ip st disk ip sev stamp1 true is_linux).disk
        ip sev stamp2 true is_linux).disk =
      (block_ip st disk ip sev stamp1 true is_linux).disk ∧
    (block_ip st disk ip sev stamp1 true is_linux).disk.blocked_lines.count
      ip = 1 := by
  have h1 := block_ip_success st disk ip sev stamp1 true is_linux hv hm
  have hmem2 : ip ∈ (block_ip st disk ip sev stamp1 true is_linux).state.blocked_ips := by
    rw [h1]
    simp [blockSuccState]
  have h2 := block_ip_already
    (block_ip st disk ip sev stamp1 true is_linux).state
    (block_ip st disk ip sev stamp1 true is_linux).disk
    ip sev stamp2 true is_linux hv hmem2
  refine ⟨by rw [h1], by rw [h2], by rw [h2], by rw [h2], ?_⟩
  rw [h1]
  simp [save_blocked_ips, blockSuccState, List.count_append,
    List.count_eq_zero_of_not_mem hm]

/-- Dropping is the identity when no element satisfies the predicate. -/
theorem dropWhile_eq_self_of_all_neg {p : Char → Bool} (l : List Char)
    (h : ∀ c ∈ l, p c = false) : l.dropWhile p = l := by
  cases l with
  | nil => rfl
  | cons a tl => rw [List.dropWhile_cons, h a (by simp)]; simp

/-- Case analysis: `block_ip` either rejects (returning `False` with nothing changed) or
succeeds on a valid new address. -/
theorem block_ip_cases (st : PreventionState) (disk : DiskState)
    (ip sev stamp : String) (save_ok is_linux : Bool) :
    (block_ip st disk ip sev stamp save_ok is_linux =
      { ret := false, state := st, disk := disk, os_forwarded := none }) ∨
    (is_valid_ip ip = true ∧ ip ∉ st.blocked_ips ∧
      block_ip st disk ip sev stamp save_ok is_linux =
        { ret := true
          state := blockSuccState st ip sev stamp
          disk := save_blocked_ips save_ok (blockSuccState st ip sev stamp) disk
          os_forwarded := if is_linux then some ip else none }) := by
  cases hv : is_valid_ip ip with
  | false =>
    left
    unfold block_ip
    rw [hv]
    simp
  | true =>
    by_cases hm : ip ∈ st.blocked_ips
    · left
      exact block_ip_already st disk ip sev stamp save_ok is_linux hv hm
    · right
      refine ⟨rfl, hm, ?_⟩
      exact block_ip_success st disk ip sev stamp save_ok is_linux hv hm

/-- A `block_ip` call with the save succeeding preserves the memory-disk
consistency invariant. -/
theorem block_ip_preserves_inv (st : PreventionState) (disk : DiskState)
    (ip sev stamp : String) (is_linux : Bool)
    (h : prevention_disk_inv st disk) :
    prevention_disk_inv (block_ip st disk ip sev stamp true is_linux).state
      (block_ip st disk ip sev stamp true is_linux).disk := by
  rcases block_ip_cases st disk ip sev stamp true is_linux with
    heq | ⟨hv, hm, heq⟩
  · rw [heq]; exact h
  · rw [heq]
    obtain ⟨_, _, hnd, hvalid⟩ := h
    refine ⟨rfl, rfl, ?_, ?_⟩
    · show (st.blocked_ips ++ [ip]).Nodup
      rw [List.nodup_append]
      exact ⟨hnd, List.nodup_singleton ip,
        fun a ha hain => hm ((List.mem_singleton.mp hain) ▸ ha)⟩
    · intro x hx
      rcases List.mem_append.mp hx with hx | hx
      · exact hvalid x hx
      · rw [List.mem_singleton.mp hx]; exact hv

/-- Running a batch of `block_ip` calls with persistence succeeding preserves
the invariant, and grows the audit history by exactly the number of calls
that returned `True`. -/
theorem run_block_calls_inv (reqs : List BlockRequest) (st : PreventionState)
    (disk : DiskState) (is_linux : Bool) (h : prevention_disk_inv st disk) :
    prevention_disk_inv (run_block_calls st disk is_linux reqs).2.1
      (run_block_calls st disk is_linux reqs).2.2 ∧
    (run_block_calls st disk is_linux reqs).2.1.block_history.length =
      st.block_history.length +
        (run_block_calls st disk is_linux reqs).1.count true := by
  induction reqs generalizing st disk with
  | nil => simp [run_block_calls, h]
  | cons r rs ih =>
    have hinv := block_ip_preserves_inv st disk r.ip r.severity r.stamp
      is_linux h
    have ihh := ih
      (block_ip st disk r.ip r.severity r.stamp true is_linux).state
      (block_ip st disk r.ip r.severity r.stamp true is_linux).disk hinv
    have hfst : (run_block_calls st disk is_linux (r :: rs)).1 =
        (block_ip st disk r.ip r.severity r.stamp true is_linux).ret ::
          (run_block_calls
            (block_ip st disk r.ip r.severity r.stamp true is_linux).state
            (block_ip st disk r.ip r.severity r.stamp true is_linux).disk
            is_linux rs).1 := rfl
    have hsnd : (run_block_calls st disk is_linux (r :: rs)).2 =
        (run_block_calls
          (block_ip st disk r.ip r.severity r.stamp true is_linux).state
          (block_ip st disk r.ip r.severity r.stamp true is_linux).disk
          is_linux rs).2 := rfl
    refine ⟨by rw [hsnd]; exact ihh.1, ?_⟩
    rw [hsnd, hfst]
    rcases block_ip_cases st disk r.ip r.severity r.stamp true is_linux with
      heq | ⟨hv, hm, heq⟩
    · have hh := ihh.2
      rw [heq] at hh ⊢
      simp only [List.count_cons, hh]
      simp
    · have hh := ihh.2
      rw [heq] at hh ⊢
      simp only [blockSuccState] at hh ⊢
      simp only [List.count_cons] at hh ⊢
      simp at hh ⊢
      omega

/-- Witness for C6's amended theorem at the claim's example input. -/
theorem C6_amended_second_block_witness :
    is_valid_ip "203.0.113.5" = true ∧
    "203.0.113.5" ∉ (init_prevention false).blocked_ips ∧
    (block_ip (init_prevention false) empty_disk "203.0.113.5" "HIGH" "t0"
        true false).ret = true ∧
    (block_ip
        (block_ip (init_prevention false) empty_disk "203.0.113.5" "HIGH" "t0"
          true false).state
        (block_ip (init_prevention false) empty_disk "203.0.113.5" "HIGH" "t0"
          true false).disk
        "203.0.113.5" "HIGH" "t1" true false).ret = false ∧
    (block_ip (init_prevention false) empty_disk "203.0.113.5" "HIGH" "t0"
        true false).disk.blocked_lines.count "203.0.113.5" = 1 := by
  have h := C6_amended_second_block_noop (init_prevention false) empty_disk
    "203.0.113.5" "HIGH" "t0" "t1" false (by decide) (by decide)
  exact ⟨by decide, by decide, h.1, h.2.1, h.2.2.2.2⟩

/-- Reading back the key just written into an association list. -/
theorem alist_getD_set {α : Type} (m : List (String × α)) (k : String)
    (v d : α) : alist_getD (alist_set m k v) k d = v := by
  induction m with
  | nil => simp [alist_set, alist_getD, List.lookup]
  | cons kv m ih =>
    obtain ⟨k2, v2⟩ := kv
    by_cases h : k2 = k
    · subst h
      simp [alist_set, alist_getD, List.lookup]
    · have hne : (k == k2) = false :=
        beq_eq_false_iff_ne.mpr (fun e => h e.symm)
      simp only [alist_set, if_neg h, alist_getD, List.lookup, hne]
      exact ih

/-- On a sorted timestamp list, evicting stale entries from the front removes
exactly the stale entries. -/
theorem dropWhile_stale_eq_filter (now w : ℚ) (l : List ℚ)
    (hl : l.Sorted (· ≤ ·)) :
    l.dropWhile (fun t => decide (now - t > w)) =
      l.filter (fun t => decide (now - t ≤ w)) := by
  induction l with
  | nil => rfl
  | cons a tl ih =>
    rw [List.sorted_cons] at hl
    obtain ⟨ha, htl⟩ := hl
    by_cases hp : now - a > w
    · have h1 : decide (now - a > w) = true := by
        simp [hp]
      have h2 : decide (now - a ≤ w) = false := by
        simp
        linarith
      rw [List.dropWhile_cons, List.filter_cons, h1, h2, if_pos rfl,
        if_neg (by simp)]
      exact ih htl
    · have h1 : decide (now - a > w) = false := by
        simp [hp]
      have h2 : decide (now - a ≤ w) = true := by
        simp
        linarith [not_lt.mp hp]
      rw [List.dropWhile_cons, List.filter_cons, h1, h2, if_neg (by simp),
        if_pos rfl]
      have hrest : tl.filter (fun t => decide (now - t ≤ w)) = tl := by
        rw [List.filter_eq_self]
        intro b hb
        simp
        have hab := ha b hb
        have hna := not_lt.mp hp
        linarith
      rw [hrest]

/-- The state `process_flow` leaves behind once the filter passes. -/
theorem process_flow_state (st : AlertEngineState) (attack : String)
    (confidence now : ℚ) (src : String)
    (hguard : ¬(attack = "Benign" ∨ confidence < st.confidence_threshold)) :
    (process_flow st attack confidence now src).2 =
      { st with
        suspicious_flows :=
          alist_set st.suspicious_flows src
            ((alist_getD st.suspicious_flows src [] ++ [now]).dropWhile
              fun t => decide (now - t > st.window_seconds)) } := by
  unfold process_flow
  rw [if_neg hguard]
  simp only []
  split <;> rfl

/-- The appended current timestamp survives eviction when it does not itself
satisfy the eviction predicate. -/
theorem mem_dropWhile_last {p : ℚ → Bool} (l : List ℚ) (x : ℚ)
    (hx : p x = false) : x ∈ (l ++ [x]).dropWhile p := by
  induction l with
  | nil => simp [List.dropWhile_cons, hx]
  | cons a tl ih =>
    rw [List.cons_append, List.dropWhile_cons]
    by_cases hp : p a = true
    · rw [hp]
      simpa using ih
    · rw [Bool.not_eq_true] at hp
      rw [hp]
      simp

/-- C3: after a `process_flow` call that records the current event's
timestamp, every timestamp retained in that source's window satisfies
`now - t <= window_seconds`; moreover eviction uses a strict greater-than
comparison, so a previously retained timestamp that is exactly
`window_seconds` old is kept. -/
theorem C3_window_invariant (st : AlertEngineState) (attack : String)
    (confidence now : ℚ) (src : String)
    (hA : attack ≠ "Benign") (hC : st.confidence_threshold ≤ confidence)
    (hS : (alist_getD st.suspicious_flows src []).Sorted (· ≤ ·))
    (hN : ∀ t ∈ alist_getD st.suspicious_flows src [], t ≤ now) :
    (∀ t ∈ alist_getD
        (process_flow st attack confidence now src).2.suspicious_flows src [],
      now - t ≤ st.window_seconds) ∧
    (∀ t ∈ alist_getD st.suspicious_flows src [],
      now - t = st.window_seconds →
        t ∈ alist_getD
          (process_flow st attack confidence now src).2.suspicious_flows
            src []) := by
  have hguard : ¬(attack = "Benign" ∨ confidence < st.confidence_threshold) := by
    rintro (h | h)
    · exact hA h
    · exact absurd hC (not_le.mpr h)
  have hsorted : (alist_getD st.suspicious_flows src [] ++ [now]).Sorted
      (· ≤ ·) := by
    rw [List.Sorted, List.pairwise_append]
    exact ⟨hS, List.sorted_singleton now,
      fun a ha b hb => (List.mem_singleton.mp hb) ▸ hN a ha⟩
  have hget : alist_getD
      (process_flow st attack confidence now src).2.suspicious_flows src [] =
      ((alist_getD st.suspicious_flows src [] ++ [now]).dropWhile
        fun t => decide (now - t > st.window_seconds)) := by
    rw [process_flow_state st attack confidence now src hguard]
    exact alist_getD_set st.suspicious_flows src _ []
  rw [hget, dropWhile_stale_eq_filter now st.window_seconds _ hsorted]
  constructor
  · intro t ht
    have := List.of_mem_filter ht
    simpa using this
  · intro t ht heq
    refine List.mem_filter.mpr ⟨List.mem_append_left _ ht, ?_⟩
    simp [heq]

/-- Witness for C3 at a concrete engine state with a window `[0, 3]`, window
size 5 and the new event at time 5 (so the timestamp 0 is exactly
`window_seconds` old and is retained). -/
theorem C3_window_invariant_witness :
    (∀ t ∈ alist_getD
        (process_flow sample_engine "DoS" (9/10) 5
          "10.0.0.1").2.suspicious_flows "10.0.0.1" [],
      (5 : ℚ) - t ≤ sample_engine.window_seconds) ∧
    (∀ t ∈ alist_getD sample_engine.suspicious_flows "10.0.0.1" [],
      (5 : ℚ) - t = sample_engine.window_seconds →
        t ∈ alist_getD
          (process_flow sample_engine "DoS" (9/10) 5
            "10.0.0.1").2.suspicious_flows "10.0.0.1" []) :=
  C3_window_invariant sample_engine "DoS" (9/10) 5 "10.0.0.1" (by decide)
    (by with_unfolding_all decide) (by with_unfolding_all decide)
    (by with_unfolding_all decide)

/-- C4: with the default configuration (`window_seconds=5`,
`flow_threshold=10`), ten suspicion events for one source within 4 time units
produce exactly one alert, emitted on the tenth event (timestamp 4) with
`count = 10`; the same ten events spread evenly across 6 time units produce
no alert, because the earliest events are evicted before the count reaches
the threshold. -/
theorem C4_threshold_correctness :
    (run_flows default_engine
        (burst_events [0, 0, 1, 1, 2, 2, 3, 3, 4, 4] "10.0.0.9")).1 =
      [{ timestamp := 4, src_ip := "10.0.0.9", attack_type := "DoS"
         count := 10, confidence := 9/10 }] ∧
    (run_flows default_engine
        (burst_events [0, 2/3, 4/3, 2, 8/3, 10/3, 4, 14/3, 16/3, 6]
          "10.0.0.9")).1 = [] := by
  constructor
  · with_unfolding_all decide
  · with_unfolding_all decide

/-- C5: an observation classified "Benign" never records a suspicion event
and leaves the engine untouched, whatever its confidence; with the default
threshold 0.7, confidence 0.69 is rejected the same way while confidence 0.70
with a non-Benign label is recorded (the filter passes exactly when
`confidence >= threshold`, boundary inclusive). -/
theorem C5_confidence_filter (st : AlertEngineState) (attack src : String)
    (confidence now : ℚ) :
    (process_flow st "Benign" confidence now src = (none, st)) ∧
    (st.confidence_threshold = 7/10 →
      process_flow st attack (69/100) now src = (none, st)) ∧
    (st.confidence_threshold = 7/10 → attack ≠ "Benign" →
      0 ≤ st.window_seconds →
      now ∈ alist_getD
        (process_flow st attack (70/100) now src).2.suspicious_flows src []) ∧
    (attack ≠ "Benign" →
      (suspicion_recorded attack confidence st.confidence_threshold = true ↔
        st.confidence_threshold ≤ confidence)) ∧
    (suspicion_recorded attack confidence st.confidence_threshold = false →
      process_flow st attack confidence now src = (none, st)) := by
  refine ⟨?_, ?_, ?_, ?_, ?_⟩
  · unfold process_flow
    rw [if_pos (Or.inl rfl)]
  · intro h
    unfold process_flow
    rw [if_pos (Or.inr (by rw [h]; norm_num))]
  · intro h hA hw
    have hguard :
        ¬(attack = "Benign" ∨ (70/100 : ℚ) < st.confidence_threshold) := by
      rintro (hb | hb)
      · exact hA hb
      · rw [h] at hb
        norm_num at hb
    rw [process_flow_state st attack (70/100) now src hguard, alist_getD_set]
    refine mem_dropWhile_last _ _ ?_
    simp only [decide_eq_false_iff_not]
    rw [sub_self]
    exact not_lt.mpr hw
  · intro hA
    have hb : (attack == "Benign") = false := beq_eq_false_iff_ne.mpr hA
    unfold suspicion_recorded
    rw [hb, Bool.false_or, Bool.not_eq_true', decide_eq_false_iff_not, not_lt]
  · intro hrec
    unfold suspicion_recorded at hrec
    rw [Bool.not_eq_false'] at hrec
    simp only [Bool.or_eq_true, beq_iff_eq, decide_eq_true_eq] at hrec
    unfold process_flow
    rw [if_pos hrec]

/-- Witness for C5 at the default engine: "Benign" at confidence 0.99 is
dropped, "PortScan" at 0.69 is dropped, "PortScan" at 0.70 is recorded. -/
theorem C5_confidence_filter_witness :
    process_flow default_engine "Benign" (99/100) 1 "10.0.0.2" =
      (none, default_engine) ∧
    process_flow default_engine "PortScan" (69/100) 1 "10.0.0.2" =
      (none, default_engine) ∧
    (1 : ℚ) ∈ alist_getD
      (process_flow default_engine "PortScan" (70/100) 1
        "10.0.0.2").2.suspicious_flows "10.0.0.2" [] ∧
    suspicion_recorded "PortScan" (70/100)
      default_engine.confidence_threshold = true := by
  refine ⟨(C5_confidence_filter default_engine "PortScan" "10.0.0.2" (99/100)
      1).1,
    (C5_confidence_filter default_engine "PortScan" "10.0.0.2" (69/100)
      1).2.1 rfl,
    (C5_confidence_filter default_engine "PortScan" "10.0.0.2" (70/100)
      1).2.2.1 rfl (by decide) (by norm_num [default_engine]),
    ((C5_confidence_filter default_engine "PortScan" "10.0.0.2" (70/100)
      1).2.2.2.1 (by decide)).mpr (by with_unfolding_all decide)⟩

/-- C1 (evaluating the code at the claim's inputs): five alerts of score 1.0
each for one source leave the cumulative score at 5.0 and every decision —
including the fifth, where the source's alert count within any window is
5 ≥ repeat_alert_threshold — at `False`: the repeated-alerts rule never
fires, because `should_block` counts dictionary keys equal to the source (at
most one) instead of alerts.  The score-accumulation example holds: scores
12.0, 15.0, 25.0 accumulate to 52.0 and the third decision is `Block`. -/
theorem C1_repeat_alert_branch_never_fires :
    (run_alert_scores init_response "10.0.0.1" [1, 1, 1, 1, 1]).1 =
      [false, false, false, false, false] ∧
    alist_getD (run_alert_scores init_response "10.0.0.1"
        [1, 1, 1, 1, 1]).2.ip_threat_scores "10.0.0.1" 0 = 5 ∧
    (run_alert_scores init_response "10.0.0.9" [12, 15, 25]).1 =
      [false, false, true] ∧
    alist_getD (run_alert_scores init_response "10.0.0.9"
        [12, 15, 25]).2.ip_threat_scores "10.0.0.9" 0 = 52 := by
  refine ⟨?_, ?_, ?_, ?_⟩ <;> with_unfolding_all decide

/-- Unfolding `system_unblock` once the prevention outcome is known. -/
theorem system_unblock_eq (sys : SystemState) (ip : String)
    (save_ok is_linux : Bool) (o : BlockOutcome)
    (ho : unblock_ip sys.prevention sys.disk ip save_ok is_linux = o) :
    system_unblock sys ip save_ok is_linux =
      (o.ret, { sys with prevention := o.state, disk := o.disk }) := by
  unfold system_unblock
  rw [ho]

/-- C8 counterexample: unblocking 203.0.113.7 (blocked, threat score 52.0)
succeeds but does not reset the source's cumulative threat score to zero —
it stays 52.0, because nothing in the repository resets
`ip_threat_scores` on unblock. -/
theorem C8_counterexample :
    ¬ (alist_getD (system_unblock sample_system "203.0.113.7" true
        false).2.response.ip_threat_scores "203.0.113.7" 0 = 0) := by
  with_unfolding_all decide

/-- C8 amended: for a valid source, `unblock_ip` requires the source to be
currently blocked (otherwise it is a no-op returning `False` with the system
unchanged); when blocked, it unblocks the source and resets its alert count
to zero, but the cumulative threat score tracked by `CustomThreatResponse`
is not reset. -/
theorem C8_amended_unblock (sys : SystemState) (ip : String)
    (save_ok is_linux : Bool) (hv : is_valid_ip ip = true)
    (hn : sys.prevention.blocked_ips.Nodup) :
    (ip ∈ sys.prevention.blocked_ips →
      (system_unblock sys ip save_ok is_linux).1 = true ∧
      ip ∉ (system_unblock sys ip save_ok
        is_linux).2.prevention.blocked_ips ∧
      alist_getD (system_unblock sys ip save_ok
        is_linux).2.prevention.ip_alert_count ip 0 = 0 ∧
      (system_unblock sys ip save_ok is_linux).2.response = sys.response) ∧
    (ip ∉ sys.prevention.blocked_ips →
      (system_unblock sys ip save_ok is_linux).1 = false ∧
      (system_unblock sys ip save_ok is_linux).2 = sys) := by
  constructor
  · intro hm
    rw [system_unblock_eq sys ip save_ok is_linux _
      (unblock_ip_success sys.prevention sys.disk ip save_ok is_linux hv hm)]
    refine ⟨rfl, ?_, ?_, rfl⟩
    · show ip ∉ (unblockSuccState sys.prevention ip).blocked_ips
      exact hn.not_mem_erase
    · show alist_getD
        (alist_set sys.prevention.ip_alert_count ip 0) ip 0 = 0
      exact alist_getD_set _ _ _ _
  · intro hm
    rw [system_unblock_eq sys ip save_ok is_linux _
      (unblock_ip_not_blocked sys.prevention sys.disk ip save_ok is_linux
        hv hm)]
    exact ⟨rfl, rfl⟩

/-- Witness for C8's amended theorem: unblocking the blocked source of
`sample_system` succeeds, empties its alert count, removes it from the
blocked set, and leaves the threat-response component untouched. -/
theorem C8_amended_unblock_witness :
    is_valid_ip "203.0.113.7" = true ∧
    (system_unblock sample_system "203.0.113.7" true false).1 = true ∧
    "203.0.113.7" ∉ (system_unblock sample_system "203.0.113.7" true
      false).2.prevention.blocked_ips ∧
    alist_getD (system_unblock sample_system "203.0.113.7" true
      false).2.prevention.ip_alert_count "203.0.113.7" 0 = 0 ∧
    (system_unblock sample_system "203.0.113.7" true false).2.response =
      sample_system.response := by
  have h := (C8_amended_unblock sample_system "203.0.113.7" true false
    (by decide) (by decide)).1 (by decide)
  exact ⟨by decide, h.1, h.2.1, h.2.2.1, h.2.2.2⟩

/-- Every Unicode decimal digit has code point at least 48 (the ASCII
digits are the lowest Nd run). -/
theorem isPyDigit_ge (c : Char) (h : isPyDigit c = true) : 48 ≤ c.toNat := by
  unfold isPyDigit at h
  rw [List.any_eq_true] at h
  obtain ⟨s, hs, hc⟩ := h
  simp only [Bool.and_eq_true, decide_eq_true_eq] at hc
  have h48 : ∀ s ∈ ndDigitStarts, 48 ≤ s := by decide
  exact le_trans (h48 s hs) hc.1

/-- A decimal digit is not the dot separator. -/
theorem isPyDigit_ne_dot (c : Char) (h : isPyDigit c = true) : c ≠ '.' := by
  intro e
  have hge := isPyDigit_ge c h
  rw [e] at hge
  exact absurd hge (by decide)

/-- A decimal digit is not a newline. -/
theorem isPyDigit_ne_nl (c : Char) (h : isPyDigit c = true) : c ≠ '\n' := by
  intro e
  have hge := isPyDigit_ge c h
  rw [e] at hge
  exact absurd hge (by decide)

/-- A decimal digit is not whitespace. -/
theorem isPyDigit_not_whitespace (c : Char) (h : isPyDigit c = true) :
    c.isWhitespace = false := by
  have hge := isPyDigit_ge c h
  have h1 : c ≠ ' ' := by
    intro e; rw [e] at hge; exact absurd hge (by decide)
  have h2 : c ≠ '\t' := by
    intro e; rw [e] at hge; exact absurd hge (by decide)
  have h3 : c ≠ '\x0d' := by
    intro e; rw [e] at hge; exact absurd hge (by decide)
  have h4 : c ≠ '\n' := by
    intro e; rw [e] at hge; exact absurd hge (by decide)
  simp [Char.isWhitespace, h1, h2, h3, h4]

/-- Unfolding one `\d{1,3}\.` group of the matcher. -/
theorem matchOctets_succ_iff (k : Nat) (cs : List Char) :
    matchOctets (k + 1) cs = true ↔
      ∃ g rest, cs = g ++ '.' :: rest ∧ gOk g ∧ matchOctets k rest = true := by
  constructor
  · intro h
    simp only [matchOctets, Bool.and_eq_true, decide_eq_true_eq] at h
    obtain ⟨⟨h1, h2⟩, h3⟩ := h
    cases hdrop : cs.dropWhile isPyDigit with
    | nil => rw [hdrop] at h3; simp at h3
    | cons c rest =>
      rw [hdrop] at h3
      simp only [Bool.and_eq_true, beq_iff_eq] at h3
      obtain ⟨hc, hm⟩ := h3
      subst hc
      refine ⟨cs.takeWhile isPyDigit, rest, ?_,
        ⟨h1, h2, fun c hc => List.mem_takeWhile_imp hc⟩, hm⟩
      conv_lhs => rw [← List.takeWhile_append_dropWhile isPyDigit cs]
      rw [hdrop]
  · rintro ⟨g, rest, hcs, ⟨h1, h2, hdig⟩, hm⟩
    subst hcs
    have hdot : isPyDigit '.' = false := by decide
    obtain ⟨ht, hd⟩ := takeWhile_all_append g '.' rest hdig hdot
    simp only [matchOctets, ht, hd]
    simp [h1, h2, hm]

/-- Unfolding the final `\d{1,3}$` group of the matcher: the remainder after
the digits is empty or a single newline (Python's `$`). -/
theorem matchOctets_zero_iff (cs : List Char) :
    matchOctets 0 cs = true ↔
      ∃ g nl, cs = g ++ nl ∧ gOk g ∧ (nl = [] ∨ nl = ['\n']) := by
  constructor
  · intro h
    simp only [matchOctets, Bool.and_eq_true, Bool.or_eq_true,
      decide_eq_true_eq, List.isEmpty_iff, beq_iff_eq] at h
    obtain ⟨⟨h1, h2⟩, h3⟩ := h
    exact ⟨cs.takeWhile isPyDigit, cs.dropWhile isPyDigit,
      (List.takeWhile_append_dropWhile isPyDigit cs).symm,
      ⟨h1, h2, fun c hc => List.mem_takeWhile_imp hc⟩, h3⟩
  · rintro ⟨g, nl, hcs, ⟨h1, h2, hdig⟩, hnl⟩
    subst hcs
    rcases hnl with hnl | hnl <;> subst hnl
    · obtain ⟨ht, hd⟩ := takeWhile_all g hdig
      simp only [List.append_nil, matchOctets, ht, hd]
      simp [h1, h2]
    · have hnld : isPyDigit '\n' = false := by decide
      obtain ⟨ht, hd⟩ := takeWhile_all_append g '\n' [] hdig hnld
      simp only [matchOctets, ht, hd]
      simp [h1, h2]

/-- The full pattern: four in-order digit groups separated by dots, with
nothing or a single newline after the last. -/
theorem matchIp_iff (cs : List Char) :
    matchOctets 3 cs = true ↔
      ∃ g1 g2 g3 g4 nl,
        cs = g1 ++ '.' :: (g2 ++ '.' :: (g3 ++ '.' :: (g4 ++ nl))) ∧
        (nl = [] ∨ nl = ['\n']) ∧ gOk g1 ∧ gOk g2 ∧ gOk g3 ∧ gOk g4 := by
  constructor
  · intro h
    obtain ⟨g1, r1, hcs1, k1, h⟩ := (matchOctets_succ_iff 2 cs).mp h
    obtain ⟨g2, r2, hcs2, k2, h⟩ := (matchOctets_succ_iff 1 r1).mp h
    obtain ⟨g3, r3, hcs3, k3, h⟩ := (matchOctets_succ_iff 0 r2).mp h
    obtain ⟨g4, nl, hcs4, k4, hnl⟩ := (matchOctets_zero_iff r3).mp h
    exact ⟨g1, g2, g3, g4, nl,
      by rw [hcs1, hcs2, hcs3, hcs4], hnl, k1, k2, k3, k4⟩
  · rintro ⟨g1, g2, g3, g4, nl, hcs, hnl, k1, k2, k3, k4⟩
    subst hcs
    exact (matchOctets_succ_iff 2 _).mpr ⟨g1, _, rfl, k1,
      (matchOctets_succ_iff 1 _).mpr ⟨g2, _, rfl, k2,
        (matchOctets_succ_iff 0 _).mpr ⟨g3, _, rfl, k3,
          (matchOctets_zero_iff _).mpr ⟨g4, nl, rfl, k4, hnl⟩⟩⟩⟩

/-- Splitting the matched decomposition on dots gives exactly the four
groups, the newline (if any) sticking to the last one. -/
theorem splitDot_chain (g1 g2 g3 g4 nl : List Char)
    (h1 : ∀ c ∈ g1, c ≠ '.') (h2 : ∀ c ∈ g2, c ≠ '.')
    (h3 : ∀ c ∈ g3, c ≠ '.') (h4 : ∀ c ∈ g4 ++ nl, c ≠ '.') :
    splitDot (g1 ++ '.' :: (g2 ++ '.' :: (g3 ++ '.' :: (g4 ++ nl)))) =
      [g1, g2, g3, g4 ++ nl] := by
  have base : splitDot (g4 ++ nl) = [g4 ++ nl] := by
    have h0 : splitDot ([] : List Char) = [] :: [] := by simp [splitDot]
    simpa using splitDot_append_free (g4 ++ nl) [] [] [] h0 h4
  have s3 : splitDot (g3 ++ '.' :: (g4 ++ nl)) = [g3, g4 ++ nl] := by
    have hdot : splitDot ('.' :: (g4 ++ nl)) = [] :: [g4 ++ nl] := by
      rw [splitDot_cons_dot, base]
    simpa using splitDot_append_free g3 ('.' :: (g4 ++ nl)) [] [g4 ++ nl]
      hdot h3
  have s2 : splitDot (g2 ++ '.' :: (g3 ++ '.' :: (g4 ++ nl))) =
      [g2, g3, g4 ++ nl] := by
    have hdot : splitDot ('.' :: (g3 ++ '.' :: (g4 ++ nl))) =
        [] :: [g3, g4 ++ nl] := by
      rw [splitDot_cons_dot, s3]
    simpa using splitDot_append_free g2 _ [] [g3, g4 ++ nl] hdot h2
  have hdot : splitDot ('.' :: (g2 ++ '.' :: (g3 ++ '.' :: (g4 ++ nl)))) =
      [] :: [g2, g3, g4 ++ nl] := by
    rw [splitDot_cons_dot, s2]
  simpa using splitDot_append_free g1 _ [] [g2, g3, g4 ++ nl] hdot h1

/-- A list of length four is a four-element list literal. -/
theorem list_len_four {α : Type} (l : List α) (h : l.length = 4) :
    ∃ a b c d, l = [a, b, c, d] := by
  cases l with
  | nil => simp at h
  | cons a l1 =>
    cases l1 with
    | nil => simp at h
    | cons b l2 =>
      cases l2 with
      | nil => simp at h
      | cons c l3 =>
        cases l3 with
        | nil => simp at h
        | cons d l4 =>
          cases l4 with
          | nil => exact ⟨a, b, c, d, rfl⟩
          | cons e l5 =>
            simp only [List.length_cons] at h
            omega

/-- Stripping changes nothing on a whitespace-free list. -/
theorem stripChars_no_ws (xs : List Char)
    (h : ∀ c ∈ xs, c.isWhitespace = false) : stripChars xs = xs := by
  have hs1 : xs.dropWhile Char.isWhitespace = xs :=
    dropWhile_eq_self_of_all_neg _ h
  have hs2 : xs.reverse.dropWhile Char.isWhitespace = xs.reverse :=
    dropWhile_eq_self_of_all_neg _ (fun c hc => h c (List.mem_reverse.mp hc))
  unfold stripChars
  rw [hs1, hs2, List.reverse_reverse]

/-- Stripping removes a single trailing newline from a whitespace-free
list. -/
theorem stripChars_append_nl (xs : List Char)
    (h : ∀ c ∈ xs, c.isWhitespace = false) :
    stripChars (xs ++ ['\n']) = xs := by
  cases xs with
  | nil => decide
  | cons a tl =>
    have ha : a.isWhitespace = false := h a (by simp)
    have hd1 : ((a :: tl) ++ ['\n']).dropWhile Char.isWhitespace =
        (a :: tl) ++ ['\n'] := by
      rw [List.cons_append, List.dropWhile_cons, ha]
      simp
    have hrev : ((a :: tl) ++ ['\n']).reverse = '\n' :: (a :: tl).reverse := by
      rw [List.reverse_append]
      rfl
    have hd2 : ('\n' :: (a :: tl).reverse).dropWhile Char.isWhitespace =
        (a :: tl).reverse := by
      rw [List.dropWhile_cons]
      simp only [show ('\n').isWhitespace = true by decide, if_true]
      exact dropWhile_eq_self_of_all_neg _
        (fun c hc => h c (List.mem_reverse.mp hc))
    unfold stripChars
    rw [hd1, hrev, hd2, List.reverse_reverse]

/-- Removing the trailing newline from a list that ends in one. -/
theorem dropTrailingNl_concat_nl (q : List Char) :
    dropTrailingNl (q ++ ['\n']) = q := by
  unfold dropTrailingNl
  rw [List.getLast?_concat, if_pos rfl, List.dropLast_concat]

/-- A list is its trailing-newline truncation, possibly plus a newline. -/
theorem dropTrailingNl_cases (cs : List Char) :
    cs = dropTrailingNl cs ∨ cs = dropTrailingNl cs ++ ['\n'] := by
  unfold dropTrailingNl
  by_cases h : cs.getLast? = some '\n'
  · rw [if_pos h]
    right
    cases hc : cs with
    | nil => rw [hc] at h; simp at h
    | cons a l =>
      rw [← hc]
      have hne : cs ≠ [] := by rw [hc]; simp
      have hlast : cs.getLast hne = '\n' := by
        have := List.getLast?_eq_getLast cs hne
        rw [h] at this
        exact (Option.some_injective _ this.symm)
      conv_lhs => rw [← List.dropLast_append_getLast hne, hlast]
  · rw [if_neg h]
    left
    rfl

/-- A list ending in a non-newline character is untouched by
`dropTrailingNl`. -/
theorem dropTrailingNl_concat_ne (q : List Char) (c : Char) (hc : c ≠ '\n') :
    dropTrailingNl (q ++ [c]) = q ++ [c] := by
  unfold dropTrailingNl
  rw [List.getLast?_concat, if_neg (by simpa using hc)]

/-- Applying `int` to a pure digit group. -/
theorem pyInt_digits (g : List Char) (hg : ∀ c ∈ g, isPyDigit c = true) :
    pyInt g = parsePyDigits g := by
  unfold pyInt
  rw [stripChars_no_ws g (fun c hc => isPyDigit_not_whitespace c (hg c hc))]

/-- Applying `int` to the last group, which may carry the trailing
newline: the newline is stripped before parsing. -/
theorem pyInt_digits_nl (g nl : List Char)
    (hg : ∀ c ∈ g, isPyDigit c = true) (hnl : nl = [] ∨ nl = ['\n']) :
    pyInt (g ++ nl) = parsePyDigits g := by
  rcases hnl with h | h <;> subst h
  · rw [List.append_nil]
    exact pyInt_digits g hg
  · unfold pyInt
    rw [stripChars_append_nl g
      (fun c hc => isPyDigit_not_whitespace c (hg c hc))]

/-- Dot-freeness of the last chunk of the matched decomposition. -/
theorem chain_last_free (g nl : List Char)
    (hg : ∀ c ∈ g, isPyDigit c = true) (hnl : nl = [] ∨ nl = ['\n']) :
    ∀ c ∈ g ++ nl, c ≠ '.' := by
  intro c hc
  rcases List.mem_append.mp hc with hc | hc
  · exact isPyDigit_ne_dot c (hg c hc)
  · rcases hnl with h | h <;> subst h
    · simp at hc
    · rw [List.mem_singleton.mp hc]
      decide

/-- The octet-range check of `is_valid_ip` over the split of a matched
decomposition reduces to the four group values. -/
theorem chain_all_iff (g1 g2 g3 g4 nl : List Char)
    (hnl : nl = [] ∨ nl = ['\n'])
    (k1 : gOk g1) (k2 : gOk g2) (k3 : gOk g3) (k4 : gOk g4) :
    ((splitDot (g1 ++ '.' :: (g2 ++ '.' :: (g3 ++ '.' :: (g4 ++ nl))))).all
        fun part => decide (0 ≤ pyInt part) && decide (pyInt part ≤ 255)) =
        true ↔
      (parsePyDigits g1 ≤ 255 ∧ parsePyDigits g2 ≤ 255 ∧
        parsePyDigits g3 ≤ 255 ∧ parsePyDigits g4 ≤ 255) := by
  rw [splitDot_chain g1 g2 g3 g4 nl
    (fun c hc => isPyDigit_ne_dot c (k1.2.2 c hc))
    (fun c hc => isPyDigit_ne_dot c (k2.2.2 c hc))
    (fun c hc => isPyDigit_ne_dot c (k3.2.2 c hc))
    (chain_last_free g4 nl k4.2.2 hnl)]
  simp only [List.all_cons, List.all_nil, Bool.and_eq_true,
    decide_eq_true_eq, Bool.and_true]
  rw [pyInt_digits g1 k1.2.2, pyInt_digits g2 k2.2.2, pyInt_digits g3 k3.2.2,
    pyInt_digits_nl g4 nl k4.2.2 hnl]
  simp only [Nat.zero_le, true_and]

/-- The validator accepts exactly the matched decompositions with in-range
group values. -/
theorem is_valid_ip_iff_chain (s : String) :
    is_valid_ip s = true ↔ ipChainP s := by
  unfold is_valid_ip
  cases hm : matchOctets 3 s.data with
  | false =>
    simp only [if_pos rfl]
    constructor
    · intro h
      exact absurd h (by simp)
    · rintro ⟨g1, g2, g3, g4, nl, hcs, hnl, k1, k2, k3, k4⟩
      have hmt := (matchIp_iff s.data).mpr
        ⟨g1, g2, g3, g4, nl, hcs, hnl, k1.1, k2.1, k3.1, k4.1⟩
      rw [hm] at hmt
      exact absurd hmt (by simp)
  | true =>
    rw [if_neg (by simp)]
    constructor
    · intro h
      obtain ⟨g1, g2, g3, g4, nl, hcs, hnl, k1, k2, k3, k4⟩ :=
        (matchIp_iff s.data).mp hm
      rw [hcs] at h
      have hv := (chain_all_iff g1 g2 g3 g4 nl hnl k1 k2 k3 k4).mp h
      exact ⟨g1, g2, g3, g4, nl, hcs, hnl, ⟨k1, hv.1⟩, ⟨k2, hv.2.1⟩,
        ⟨k3, hv.2.2.1⟩, ⟨k4, hv.2.2.2⟩⟩
    · rintro ⟨g1, g2, g3, g4, nl, hcs, hnl, ⟨k1, v1⟩, ⟨k2, v2⟩, ⟨k3, v3⟩,
        ⟨k4, v4⟩⟩
      rw [hcs]
      exact (chain_all_iff g1 g2 g3 g4 nl hnl k1 k2 k3 k4).mpr ⟨v1, v2, v3, v4⟩

/-- Re-associating the newline to the end of the whole chain. -/
theorem chain_append_nl (g1 g2 g3 g4 : List Char) :
    g1 ++ '.' :: (g2 ++ '.' :: (g3 ++ '.' :: (g4 ++ ['\n']))) =
      (g1 ++ '.' :: (g2 ++ '.' :: (g3 ++ '.' :: g4))) ++ ['\n'] := by
  simp [List.append_assoc]

/-- A strict chain (digit last group) has no trailing newline to drop. -/
theorem strict_chain_drop (g1 g2 g3 g4 : List Char) (h4 : g4 ≠ [])
    (hd : ∀ c ∈ g4, isPyDigit c = true) :
    dropTrailingNl (g1 ++ '.' :: (g2 ++ '.' :: (g3 ++ '.' :: g4))) =
      g1 ++ '.' :: (g2 ++ '.' :: (g3 ++ '.' :: g4)) := by
  rcases List.eq_nil_or_concat g4 with h | ⟨i, c, hic⟩
  · exact absurd h h4
  · rw [List.concat_eq_append] at hic
    have hcd : c ≠ '\n' :=
      isPyDigit_ne_nl c (hd c (by rw [hic]; simp))
    have hassoc : g1 ++ '.' :: (g2 ++ '.' :: (g3 ++ '.' :: (i ++ [c]))) =
        (g1 ++ '.' :: (g2 ++ '.' :: (g3 ++ '.' :: i))) ++ [c] := by
      simp [List.append_assoc]
    rw [hic, hassoc, dropTrailingNl_concat_ne _ c hcd]

/-- The amended claim predicate accepts exactly the matched decompositions
with in-range group values. -/
theorem isIpv4DottedQuadNL_iff_chain (s : String) :
    isIpv4DottedQuadNL s = true ↔ ipChainP s := by
  unfold isIpv4DottedQuadNL
  constructor
  · intro h
    simp only [Bool.and_eq_true, beq_iff_eq, List.all_eq_true] at h
    obtain ⟨hlen, hparts⟩ := h
    obtain ⟨p1, p2, p3, p4, hps⟩ := list_len_four _ hlen
    have hq : ∀ p, p ∈ splitDot (dropTrailingNl s.data) →
        1 ≤ p.length ∧ p.length ≤ 3 ∧ (∀ c ∈ p, isPyDigit c = true) ∧
          parsePyDigits p ≤ 255 := by
      intro p hp
      have := hparts p hp
      simp only [Bool.and_eq_true, decide_eq_true_eq, List.all_eq_true]
        at this
      exact ⟨this.1.1.1, this.1.1.2, this.1.2, this.2⟩
    have q1 := hq p1 (by rw [hps]; simp)
    have q2 := hq p2 (by rw [hps]; simp)
    have q3 := hq p3 (by rw [hps]; simp)
    have q4 := hq p4 (by rw [hps]; simp)
    have hjoin := joinDot_splitDot (dropTrailingNl s.data)
    rw [hps] at hjoin
    have hchain : dropTrailingNl s.data =
        p1 ++ '.' :: (p2 ++ '.' :: (p3 ++ '.' :: p4)) := by
      rw [← hjoin]
      simp [joinDot]
    rcases dropTrailingNl_cases s.data with hc | hc
    · refine ⟨p1, p2, p3, p4, [], ?_, Or.inl rfl,
        ⟨⟨q1.1, q1.2.1, q1.2.2.1⟩, q1.2.2.2⟩,
        ⟨⟨q2.1, q2.2.1, q2.2.2.1⟩, q2.2.2.2⟩,
        ⟨⟨q3.1, q3.2.1, q3.2.2.1⟩, q3.2.2.2⟩,
        ⟨⟨q4.1, q4.2.1, q4.2.2.1⟩, q4.2.2.2⟩⟩
      rw [hc, hchain]
      simp
    · refine ⟨p1, p2, p3, p4, ['\n'], ?_, Or.inr rfl,
        ⟨⟨q1.1, q1.2.1, q1.2.2.1⟩, q1.2.2.2⟩,
        ⟨⟨q2.1, q2.2.1, q2.2.2.1⟩, q2.2.2.2⟩,
        ⟨⟨q3.1, q3.2.1, q3.2.2.1⟩, q3.2.2.2⟩,
        ⟨⟨q4.1, q4.2.1, q4.2.2.1⟩, q4.2.2.2⟩⟩
      rw [hc, hchain, chain_append_nl]
  · rintro ⟨g1, g2, g3, g4, nl, hcs, hnl,
      ⟨⟨a1, b1, d1⟩, v1⟩, ⟨⟨a2, b2, d2⟩, v2⟩,
      ⟨⟨a3, b3, d3⟩, v3⟩, ⟨⟨a4, b4, d4⟩, v4⟩⟩
    have hg4ne : g4 ≠ [] := List.length_pos.mp (by omega)
    have hstrict : dropTrailingNl s.data =
        g1 ++ '.' :: (g2 ++ '.' :: (g3 ++ '.' :: g4)) := by
      rcases hnl with h | h <;> subst h
      · rw [hcs]
        simp only [List.append_nil]
        exact strict_chain_drop g1 g2 g3 g4 hg4ne d4
      · rw [hcs, chain_append_nl, dropTrailingNl_concat_nl]
    have hsplit := splitDot_chain g1 g2 g3 g4 []
      (fun c hc => isPyDigit_ne_dot c (d1 c hc))
      (fun c hc => isPyDigit_ne_dot c (d2 c hc))
      (fun c hc => isPyDigit_ne_dot c (d3 c hc))
      (chain_last_free g4 [] d4 (Or.inl rfl))
    simp only [List.append_nil] at hsplit
    rw [hstrict, hsplit]
    simp only [Bool.and_eq_true, beq_iff_eq, List.length_cons,
      List.length_nil, List.all_cons, List.all_nil, decide_eq_true_eq,
      Bool.and_true]
    refine ⟨trivial, ?_⟩
    exact ⟨⟨⟨⟨a1, b1⟩, List.all_eq_true.mpr d1⟩, v1⟩,
      ⟨⟨⟨a2, b2⟩, List.all_eq_true.mpr d2⟩, v2⟩,
      ⟨⟨⟨a3, b3⟩, List.all_eq_true.mpr d3⟩, v3⟩,
      ⟨⟨⟨a4, b4⟩, List.all_eq_true.mpr d4⟩, v4⟩⟩

/-- C10 counterexample: the validator accepts "1.2.3.4" followed by a
newline — Python's `$` matches before a single trailing newline and `int`
strips it — but that string does not consist of four dot-separated digit
groups (its last dot-separated part contains the newline), so the claimed
"exactly when" is false at this input. -/
theorem C10_counterexample :
    is_valid_ip "1.2.3.4\n" = true ∧ isIpv4DottedQuad "1.2.3.4\n" = false := by
  constructor <;> decide

/-- C10 amended: `is_valid_ip` returns `True` exactly when the string, after
removal of a single trailing newline if present, consists of four
dot-separated groups of one to three decimal digits with each group's value
between 0 and 255 inclusive; consequently IPv6 addresses, hostnames and
out-of-range octets are rejected, leading zeros are accepted, a single
trailing newline is tolerated (but not two), and non-ASCII decimal digits
are accepted. -/
theorem C10_is_valid_ip_newline_tolerant_characterization :
    (∀ s : String, is_valid_ip s = isIpv4DottedQuadNL s) ∧
    is_valid_ip "2001:db8::1" = false ∧
    is_valid_ip "example.com" = false ∧
    is_valid_ip "256.1.2.3" = false ∧
    is_valid_ip "not-an-ip" = false ∧
    is_valid_ip "001.002.3.4" = true ∧
    is_valid_ip "1.2.3.4\n" = true ∧
    is_valid_ip "1.2.3.4\n\n" = false ∧
    is_valid_ip "١.٢.٣.٤" = true := by
  refine ⟨fun s => ?_, by decide, by decide, by decide, by decide, by decide,
    by decide, by decide, by decide⟩
  have h1 := is_valid_ip_iff_chain s
  have h2 := isIpv4DottedQuadNL_iff_chain s
  cases hv : is_valid_ip s with
  | true => exact (h2.mpr (h1.mp hv)).symm
  | false =>
    cases hb : isIpv4DottedQuadNL s with
    | false => rfl
    | true =>
      have hvt := h1.mpr (h2.mp hb)
      rw [hv] at hvt
      exact absurd hvt (by simp)

/-- C7 counterexample: "1.2.3.4" followed by a newline is not a well-formed
address, yet `is_valid_ip` accepts it, so `block_ip` blocks it, records it,
and hands the raw string to the iptables helper — the very forwarding the
validation is supposed to prevent. -/
theorem C7_counterexample :
    is_valid_ip "1.2.3.4\n" = true ∧
    (block_ip (init_prevention false) empty_disk "1.2.3.4\n" "HIGH" "t0"
      true true).ret = true ∧
    "1.2.3.4\n" ∈ (block_ip (init_prevention false) empty_disk "1.2.3.4\n"
      "HIGH" "t0" true true).state.blocked_ips ∧
    (block_ip (init_prevention false) empty_disk "1.2.3.4\n" "HIGH" "t0"
      true true).os_forwarded = some "1.2.3.4\n" := by
  refine ⟨by decide, by decide, by decide, by decide⟩

/-- The function `splitNl` never returns the empty list. -/
theorem splitNl_ne_nil (cs : List Char) : splitNl cs ≠ [] := by
  induction cs with
  | nil => simp [splitNl]
  | cons c cs ih =>
    simp only [splitNl]
    by_cases h : c = '\n'
    · simp [h]
    · simp only [h, if_false]
      cases hs : splitNl cs with
      | nil => simp
      | cons p ps => simp

/-- Unfolding lemma: line-splitting a text that starts with a newline. -/
theorem splitNl_cons_nl (cs : List Char) :
    splitNl ('\n' :: cs) = [] :: splitNl cs := by
  simp [splitNl]

/-- Unfolding lemma: line-splitting a text that starts with another
character. -/
theorem splitNl_cons_ne (c : Char) (cs : List Char) (h : c ≠ '\n')
    (q : List Char) (qs : List (List Char)) (hq : splitNl cs = q :: qs) :
    splitNl (c :: cs) = (c :: q) :: qs := by
  simp [splitNl, h, hq]

/-- Line-splitting a text that starts with a newline-free prefix. -/
theorem splitNl_append_free (xs ys : List Char) (p : List Char)
    (ps : List (List Char)) (hys : splitNl ys = p :: ps)
    (hxs : ∀ c ∈ xs, c ≠ '\n') :
    splitNl (xs ++ ys) = (xs ++ p) :: ps := by
  induction xs with
  | nil => simpa using hys
  | cons c xs ih =>
    have hc : c ≠ '\n' := hxs c (by simp)
    have ih' := ih fun d hd => hxs d (by simp [hd])
    rw [List.cons_append, splitNl_cons_ne c (xs ++ ys) hc (xs ++ p) ps ih',
      List.cons_append]

/-- The lines of the block-list file: when no stored identifier contains a
newline, they are exactly the identifiers, plus the empty chunk after the
final newline. -/
theorem splitNl_file (ws : List String) (h : ∀ w ∈ ws, '\n' ∉ w.data) :
    splitNl (file_text ws) = ws.map String.data ++ [[]] := by
  induction ws with
  | nil => simp [file_text, splitNl]
  | cons w ws ih =>
    have hw : ∀ c ∈ w.data, c ≠ '\n' := by
      intro c hc he
      exact h w (by simp) (he ▸ hc)
    have ih' := ih fun u hu => h u (by simp [hu])
    have hrw : file_text (w :: ws) = w.data ++ '\n' :: file_text ws := by
      simp [file_text, List.append_assoc]
    rw [hrw]
    cases htail : splitNl (file_text ws) with
    | nil => exact absurd htail (splitNl_ne_nil _)
    | cons p ps =>
      have hsplit_tail : splitNl ('\n' :: file_text ws) = [] :: p :: ps := by
        rw [splitNl_cons_nl, htail]
      rw [splitNl_append_free w.data ('\n' :: file_text ws) [] (p :: ps)
        hsplit_tail hw]
      have hps : p :: ps = ws.map String.data ++ [[]] := by
        rw [← htail, ih']
      rw [hps]
      simp

/-- Characters of a validator-accepted, newline-free identifier are digits
or dots, and the identifier is non-empty. -/
theorem valid_nonl_chars (s : String) (hv : is_valid_ip s = true)
    (hnl : '\n' ∉ s.data) :
    (∀ c ∈ s.data, isPyDigit c = true ∨ c = '.') ∧ s.data ≠ [] := by
  obtain ⟨g1, g2, g3, g4, nl, hcs, hnlc, ⟨⟨a1, b1, d1⟩, _⟩,
    ⟨⟨a2, b2, d2⟩, _⟩, ⟨⟨a3, b3, d3⟩, _⟩, ⟨⟨a4, b4, d4⟩, _⟩⟩ :=
    (is_valid_ip_iff_chain s).mp hv
  have hnleq : nl = [] := by
    rcases hnlc with h | h
    · exact h
    · exfalso
      apply hnl
      rw [hcs, h]
      simp
  subst hnleq
  constructor
  · intro c hc
    rw [hcs] at hc
    rcases List.mem_append.mp hc with hc | hc
    · exact Or.inl (d1 c hc)
    · rcases List.mem_cons.mp hc with hc | hc
      · exact Or.inr hc
      · rcases List.mem_append.mp hc with hc | hc
        · exact Or.inl (d2 c hc)
        · rcases List.mem_cons.mp hc with hc | hc
          · exact Or.inr hc
          · rcases List.mem_append.mp hc with hc | hc
            · exact Or.inl (d3 c hc)
            · rcases List.mem_cons.mp hc with hc | hc
              · exact Or.inr hc
              · rw [List.append_nil] at hc
                exact Or.inl (d4 c hc)
  · rw [hcs]
    intro he
    rcases List.append_eq_nil.mp he with ⟨_, h2⟩
    simp at h2

/-- A validator-accepted, newline-free identifier strips to itself and is
non-empty. -/
theorem pyStrip_valid_nonl (s : String) (hv : is_valid_ip s = true)
    (hnl : '\n' ∉ s.data) : pyStrip s = s ∧ s ≠ "" := by
  obtain ⟨hchars, hne⟩ := valid_nonl_chars s hv hnl
  have hnw : ∀ c ∈ s.data, c.isWhitespace = false := by
    intro c hc
    rcases hchars c hc with hd | hd
    · exact isPyDigit_not_whitespace c hd
    · rw [hd]
      decide
  constructor
  · show String.mk (stripChars s.data) = s
    rw [stripChars_no_ws s.data hnw]
  · intro he
    rw [he] at hne
    exact hne rfl

/-- The startup loader's fold rebuilds exactly the saved list when every
stored identifier strips to itself, is non-empty, and there are no
duplicates (the final empty chunk is skipped). -/
theorem load_fold_exact (ws acc : List String)
    (h1 : ∀ w ∈ ws, pyStrip w = w ∧ w ≠ "")
    (h2 : (acc ++ ws).Nodup) :
    (ws.map String.data ++ [[]]).foldl
      (fun acc line =>
        let ip := pyStrip (String.mk line)
        if ip = "" then acc else set_add acc ip) acc = acc ++ ws := by
  induction ws generalizing acc with
  | nil =>
    simp only [List.map_nil, List.nil_append, List.foldl_cons, List.foldl_nil,
      List.append_nil]
    have h0 : pyStrip (String.mk []) = "" := rfl
    simp [h0]
  | cons w ws ih =>
    obtain ⟨hstrip, hne⟩ := h1 w (by simp)
    have hnotin : w ∉ acc := by
      rcases List.nodup_append.mp h2 with ⟨_, _, hdisj⟩
      intro hin
      exact hdisj hin (by simp)
    simp only [List.map_cons, List.cons_append]
    rw [List.foldl_cons]
    have hmk : String.mk w.data = w := rfl
    have hstep :
        (let ip := pyStrip (String.mk w.data)
         if ip = "" then acc else set_add acc ip) = acc ++ [w] := by
      simp only [hmk, hstrip, set_add]
      rw [if_neg hne, if_neg hnotin]
    rw [hstep]
    have h2' : ((acc ++ [w]) ++ ws).Nodup := by
      rw [List.append_assoc]
      simpa using h2
    rw [ih (acc ++ [w]) (fun r hr => h1 r (by simp [hr])) h2']
    simp

/-- Every identifier in the blocked set after a batch of block calls was
there initially or came from one of the requests. -/
theorem run_blocked_from (reqs : List BlockRequest) (st : PreventionState)
    (disk : DiskState) (is_linux : Bool) :
    ∀ ip ∈ (run_block_calls st disk is_linux reqs).2.1.blocked_ips,
      ip ∈ st.blocked_ips ∨ ∃ r ∈ reqs, r.ip = ip := by
  induction reqs generalizing st disk with
  | nil =>
    intro ip hip
    exact Or.inl hip
  | cons r rs ih =>
    intro ip hip
    have hip' : ip ∈ (run_block_calls
        (block_ip st disk r.ip r.severity r.stamp true is_linux).state
        (block_ip st disk r.ip r.severity r.stamp true is_linux).disk
        is_linux rs).2.1.blocked_ips := hip
    rcases ih
      (block_ip st disk r.ip r.severity r.stamp true is_linux).state
      (block_ip st disk r.ip r.severity r.stamp true is_linux).disk
      ip hip' with h | ⟨q, hq, hqe⟩
    · rcases block_ip_cases st disk r.ip r.severity r.stamp true is_linux with
        heq | ⟨_, _, heq⟩
      · rw [heq] at h
        exact Or.inl h
      · rw [heq] at h
        have h2 : ip ∈ st.blocked_ips ++ [r.ip] := h
        rcases List.mem_append.mp h2 with h3 | h3
        · exact Or.inl h3
        · exact Or.inr ⟨r, by simp, (List.mem_singleton.mp h3).symm⟩
    · exact Or.inr ⟨q, List.mem_cons_of_mem r hq, hqe⟩

/-- C9 counterexample: one successful block call for "1.2.3.4" followed by a
newline — which the validator accepts — writes an identifier whose newline
is stripped on reload, so the reconstructed blocked set is not the same set
of blocked sources. -/
theorem C9_counterexample :
    (run_block_calls (init_prevention false) empty_disk false
        [{ ip := "1.2.3.4\n", severity := "HIGH", stamp := "t0" }]).1 =
      [true] ∧
    (init_from_disk false
        (run_block_calls (init_prevention false) empty_disk false
          [{ ip := "1.2.3.4\n", severity := "HIGH", stamp := "t0" }]
        ).2.2).blocked_ips ≠
      (run_block_calls (init_prevention false) empty_disk false
        [{ ip := "1.2.3.4\n", severity := "HIGH", stamp := "t0" }]
      ).2.1.blocked_ips := by
  constructor <;> decide

/-- C9 amended: for every sequence of `block_ip` calls run with persistence
succeeding (starting from a fresh state and empty files), reconstructing the
state from disk yields an audit history of the same length, which equals the
number of calls that returned `True`; and whenever no requested identifier
contains a newline — in particular for arbitrary strict dotted quads — the
reconstructed blocked set is exactly the in-memory one.  (Identifiers with a
trailing newline pass validation but come back stripped, see the
counterexample.) -/
theorem C9_amended_round_trip (reqs : List BlockRequest)
    (auto auto2 is_linux : Bool) :
    (init_from_disk auto2 (run_block_calls (init_prevention auto) empty_disk
        is_linux reqs).2.2).block_history.length =
      (run_block_calls (init_prevention auto) empty_disk is_linux
        reqs).2.1.block_history.length ∧
    (run_block_calls (init_prevention auto) empty_disk is_linux
        reqs).2.1.block_history.length =
      ((run_block_calls (init_prevention auto) empty_disk is_linux
        reqs).1).count true ∧
    ((∀ r ∈ reqs, '\n' ∉ r.ip.data) →
      (init_from_disk auto2 (run_block_calls (init_prevention auto)
          empty_disk is_linux reqs).2.2).blocked_ips =
        (run_block_calls (init_prevention auto) empty_disk is_linux
          reqs).2.1.blocked_ips) := by
  have h0 : prevention_disk_inv (init_prevention auto) empty_disk := by
    refine ⟨rfl, rfl, List.nodup_nil, ?_⟩
    intro x hx
    simp [init_prevention] at hx
  obtain ⟨⟨hlines, hhist, hnd, hvalid⟩, hlen⟩ :=
    run_block_calls_inv reqs (init_prevention auto) empty_disk is_linux h0
  refine ⟨?_, by simpa [init_prevention] using hlen, ?_⟩
  · show (run_block_calls (init_prevention auto) empty_disk is_linux
        reqs).2.2.history_json.length = _
    rw [hhist]
  · intro hNL
    have hblock_nl : ∀ ip ∈ (run_block_calls (init_prevention auto)
        empty_disk is_linux reqs).2.1.blocked_ips, '\n' ∉ ip.data := by
      intro ip hip
      rcases run_blocked_from reqs (init_prevention auto) empty_disk is_linux
        ip hip with h | ⟨r, hr, hre⟩
      · simp [init_prevention] at h
      · rw [← hre]
        exact hNL r hr
    have hstrip : ∀ ip ∈ (run_block_calls (init_prevention auto) empty_disk
        is_linux reqs).2.1.blocked_ips, pyStrip ip = ip ∧ ip ≠ "" :=
      fun ip hip =>
        pyStrip_valid_nonl ip (hvalid ip hip) (hblock_nl ip hip)
    show ((splitNl (file_text (run_block_calls (init_prevention auto)
        empty_disk is_linux reqs).2.2.blocked_lines)).foldl _ []) = _
    rw [hlines, splitNl_file _ hblock_nl]
    have h := load_fold_exact
      (run_block_calls (init_prevention auto) empty_disk is_linux
        reqs).2.1.blocked_ips [] hstrip (by simpa using hnd)
    simpa using h

/-- Witness for C9's amended theorem at a concrete request sequence with a
duplicate and an invalid address. -/
theorem C9_amended_round_trip_witness :
    (init_from_disk false (run_block_calls (init_prevention false) empty_disk
        false [{ ip := "203.0.113.5", severity := "HIGH", stamp := "t0" },
          { ip := "203.0.113.5", severity := "HIGH", stamp := "t1" },
          { ip := "not-an-ip", severity := "LOW", stamp := "t2" }]
      ).2.2).block_history.length =
      (run_block_calls (init_prevention false) empty_disk false
        [{ ip := "203.0.113.5", severity := "HIGH", stamp := "t0" },
          { ip := "203.0.113.5", severity := "HIGH", stamp := "t1" },
          { ip := "not-an-ip", severity := "LOW", stamp := "t2" }]
      ).2.1.block_history.length ∧
    (run_block_calls (init_prevention false) empty_disk false
        [{ ip := "203.0.113.5", severity := "HIGH", stamp := "t0" },
          { ip := "203.0.113.5", severity := "HIGH", stamp := "t1" },
          { ip := "not-an-ip", severity := "LOW", stamp := "t2" }]
      ).2.1.block_history.length =
      ((run_block_calls (init_prevention false) empty_disk false
        [{ ip := "203.0.113.5", severity := "HIGH", stamp := "t0" },
          { ip := "203.0.113.5", severity := "HIGH", stamp := "t1" },
          { ip := "not-an-ip", severity := "LOW", stamp := "t2" }]
      ).1).count true ∧
    (init_from_disk false (run_block_calls (init_prevention false) empty_disk
        false [{ ip := "203.0.113.5", severity := "HIGH", stamp := "t0" },
          { ip := "203.0.113.5", severity := "HIGH", stamp := "t1" },
          { ip := "not-an-ip", severity := "LOW", stamp := "t2" }]
      ).2.2).blocked_ips =
      (run_block_calls (init_prevention false) empty_disk false
        [{ ip := "203.0.113.5", severity := "HIGH", stamp := "t0" },
          { ip := "203.0.113.5", severity := "HIGH", stamp := "t1" },
          { ip := "not-an-ip", severity := "LOW", stamp := "t2" }]
      ).2.1.blocked_ips := by
  have h := C9_amended_round_trip
    [{ ip := "203.0.113.5", severity := "HIGH", stamp := "t0" },
      { ip := "203.0.113.5", severity := "HIGH", stamp := "t1" },
      { ip := "not-an-ip", severity := "LOW", stamp := "t2" }] false false
    false
  exact ⟨h.1, h.2.1, h.2.2 (by decide)⟩
